import Mathlib

/-!
# OS/161 file descriptors and the open-file table

A shallow embedding of `kern/syscall/file.c` and `kern/include/file.h`:
the system-wide open-file table `of_table`, the per-process descriptor
tables `curproc->fd_table`, and the six system calls built on them.

Conventions of the embedding.

* Memory is modelled by total functions: `KState.of j` is `of_table.of[j]`
  (`none` is `NULL`), `KState.fd_table p i` is `fd_table[i]` of process `p`
  (`-1` is an unbound descriptor).
* Every call into another kernel subsystem (locks, allocator, VFS, vnode
  operations, `copyinstr`) is recorded, in program order, in the event list
  of the call's `Outcome`.  What such a call answers is an argument of the
  embedded function, so that a theorem quantifies over every possible answer.
* Dereferencing `NULL`, or indexing `of_table.of` outside its bounds, has no
  defined result: the embedded function then returns `none`.
* `int` is 32 bits and `off_t` is 64 bits, two's complement.
-/

namespace OS161

/-! ## Constants from headers outside the two source files -/

/-- Constants that `file.c` takes from `kern/limits.h`, `kern/errno.h`,
`kern/fcntl.h` and `kern/seek.h`.  Their values are parameters of the
development; the only fact assumed of them is that an error code is not `0`,
the value every system call returns on success. -/
structure KConst where
  OPEN_MAX : Nat
  ENFILE : Int
  EINVAL : Int
  ENOMEM : Int
  EBADF : Int
  ESPIPE : Int
  O_ACCMODE : Int
  O_RDONLY : Int
  O_WRONLY : Int
  O_RDWR : Int
  SEEK_SET : Int
  SEEK_CUR : Int
  SEEK_END : Int
  errno_ne_zero : ENFILE ≠ 0 ∧ EINVAL ≠ 0 ∧ ENOMEM ≠ 0 ∧ EBADF ≠ 0 ∧ ESPIPE ≠ 0

/-- The values of the OS/161 headers, used to evaluate the system calls on
concrete inputs. -/
def os161 : KConst where
  OPEN_MAX := 128
  ENFILE := 29
  EINVAL := 8
  ENOMEM := 3
  EBADF := 30
  ESPIPE := 34
  O_ACCMODE := 3
  O_RDONLY := 0
  O_WRONLY := 1
  O_RDWR := 2
  SEEK_SET := 0
  SEEK_CUR := 1
  SEEK_END := 2
  errno_ne_zero := by decide

/-- The same constants with a table of four cells, for small examples. -/
def tiny : KConst := { os161 with OPEN_MAX := 4, errno_ne_zero := by decide }

/-! ## Machine integers -/

/-- Conversion of an integer to `int` (32 bits, two's complement). -/
def toInt32 (x : Int) : Int := (x + 2147483648) % 4294967296 - 2147483648

/-- Conversion of an integer to `off_t` (64 bits, two's complement). -/
def toInt64 (x : Int) : Int :=
  (x + 9223372036854775808) % 18446744073709551616 - 9223372036854775808

/-! ## Data model (`file.h`) -/

/-- The record `struct open_file`.  The field `of_lock` is not stored: the lock
of the record held by Directory cell `j` is named `LockId.of_lock j`.
`ref_counter` is an `int` that is only ever changed by one; it is bounded by the
number of descriptor cells, so it is kept as an unbounded integer. -/
structure open_file where
  offset : Int
  v_ptr : Nat
  flag : Int
  ref_counter : Int
deriving DecidableEq, Repr

/-- The two kinds of lock of `file.h`: the lock of `struct openfile_table` and the
lock of the record in a Directory cell. -/
inductive LockId where
  | of_table_lock
  | of_lock (of_n : Nat)
deriving DecidableEq, Repr

/-- Calls that leave `file.c`, with their arguments. -/
inductive Event where
  | lock_acquire (l : LockId)
  | lock_release (l : LockId)
  | lock_create (ok : Bool)
  | lock_destroy (l : LockId)
  | kmalloc (ok : Bool)
  | kfree
  | copyinstr (usersrc : Nat) (result : Int)
  | vfs_open (filename : String) (flags mode : Int)
  | vfs_close (vn : Nat)
  | VOP_READ (vn : Nat) (uio_offset uio_resid : Int)
  | VOP_WRITE (vn : Nat) (uio_offset uio_resid : Int)
  | VOP_ISSEEKABLE (vn : Nat)
  | VOP_STAT (vn : Nat)
deriving DecidableEq, Repr

/-- The kernel state the system calls work on: `of_table.of` and the `fd_table` of
every process. -/
structure KState where
  of : Nat → Option open_file
  fd_table : Nat → Nat → Int

/-- What a system call leaves behind: its return value, the content of its result
cell (`*retval`), the state, and the calls it made. -/
structure Outcome (α : Type) where
  ret : Int
  out : α
  st : KState
  ev : List Event

/-- Assignment `of_table.of[j] = v`. -/
def setOf (o : Nat → Option open_file) (j : Nat) (v : Option open_file) :
    Nat → Option open_file :=
  fun k => if k = j then v else o k

/-- Assignment `fd_table[fd] = v` in process `pid`. -/
def setFd (t : Nat → Nat → Int) (pid fd : Nat) (v : Int) : Nat → Nat → Int :=
  fun p i => if p = pid ∧ i = fd then v else t p i

/-- The loop `for (i = start; i < start + n; i++) if (p i) { found = i; break; }`. -/
def scanFrom (p : Nat → Bool) : Nat → Nat → Option Nat
  | 0, _ => none
  | n + 1, i => if p i then some i else scanFrom p n (i + 1)

/-- The read `of_table.of[of_n]` followed by a dereference of the record found
there: undefined when `of_n` is outside the array and when the cell is `NULL`. -/
def deref (K : KConst) (s : KState) (of_n : Int) : Option open_file :=
  if 0 ≤ of_n ∧ of_n < K.OPEN_MAX then s.of of_n.toNat else none

/-! ## `init_of_table` -/

/-- The function `init_of_table`: every Directory cell is set to `NULL`.  The loop
writes through the pointer `kmalloc` returned without testing it, and the function
panics when the table lock cannot be created: in both cases there is no result. -/
def init_of_table (K : KConst) (kmalloc_ok lock_ok : Bool) :
    Option (Nat → Option open_file) :=
  if ¬ kmalloc_ok ∧ 0 < K.OPEN_MAX then none
  else if lock_ok then some (fun _ => none)
  else none

/-- The state after `init_of_table`, with every descriptor table all-unbound. -/
def initState : KState where
  of := fun _ => none
  fd_table := fun _ _ => -1

/-! ## `any_open` and `sys_open` -/

/-- The function `any_open`.  `vfs_result` and `new_vnode` are what `vfs_open`
answers, `kmalloc_ok` and `lock_ok` whether `kmalloc` and `lock_create` succeed. -/
def any_open (K : KConst) (s : KState) (pid : Nat) (filename : String)
    (flags mode : Int) (retval : Int)
    (vfs_result : Int) (new_vnode : Nat) (kmalloc_ok lock_ok : Bool) : Outcome Int :=
  match scanFrom (fun i => s.fd_table pid i == -1) K.OPEN_MAX 0 with
  | none => ⟨K.ENFILE, retval, s, []⟩
  | some fd =>
    let mode_chk := Int.land flags K.O_ACCMODE
    if ¬ (mode_chk = K.O_RDONLY ∨ mode_chk = K.O_WRONLY ∨ mode_chk = K.O_RDWR) then
      ⟨K.EINVAL, retval, s, []⟩
    else if vfs_result ≠ 0 then
      ⟨vfs_result, retval, s, [Event.vfs_open filename flags mode]⟩
    else
      match scanFrom (fun j => (s.of j).isNone) K.OPEN_MAX 0 with
      | none =>
        ⟨K.ENFILE, retval, s,
          [Event.vfs_open filename flags mode,
           Event.lock_acquire LockId.of_table_lock,
           Event.lock_release LockId.of_table_lock,
           Event.vfs_close new_vnode]⟩
      | some of_n =>
        if ¬ kmalloc_ok then
          ⟨K.ENOMEM, retval, s,
            [Event.vfs_open filename flags mode,
             Event.lock_acquire LockId.of_table_lock,
             Event.kmalloc false,
             Event.lock_release LockId.of_table_lock,
             Event.vfs_close new_vnode]⟩
        else if ¬ lock_ok then
          ⟨K.ENOMEM, retval, s,
            [Event.vfs_open filename flags mode,
             Event.lock_acquire LockId.of_table_lock,
             Event.kmalloc true,
             Event.lock_create false,
             Event.vfs_close new_vnode,
             Event.kfree,
             Event.lock_release LockId.of_table_lock]⟩
        else
          ⟨0, (fd : Int),
            { of := setOf s.of of_n
                (some { offset := 0, v_ptr := new_vnode, flag := flags, ref_counter := 1 }),
              fd_table := setFd s.fd_table pid fd (of_n : Int) },
            [Event.vfs_open filename flags mode,
             Event.lock_acquire LockId.of_table_lock,
             Event.kmalloc true,
             Event.lock_create true,
             Event.lock_release LockId.of_table_lock]⟩

/-- The function `sys_open`.  `filename` is the user-space address of the path,
`copy_result` is what `copyinstr` returns and `new_filename` the content of the
kernel buffer after it; the code does not look at `copy_result`. -/
def sys_open (K : KConst) (s : KState) (pid : Nat) (filename : Nat)
    (flags mode : Int) (retval : Int)
    (copy_result : Int) (new_filename : String)
    (vfs_result : Int) (new_vnode : Nat) (kmalloc_ok lock_ok : Bool) : Outcome Int :=
  let r := any_open K s pid new_filename flags mode retval vfs_result new_vnode
    kmalloc_ok lock_ok
  { r with ev := Event.copyinstr filename copy_result :: r.ev }

/-! ## `sys_close` -/

/-- The function `sys_close`. -/
def sys_close (K : KConst) (s : KState) (pid : Nat) (fd : Int) : Option (Outcome Unit) :=
  if fd < 0 ∨ fd ≥ K.OPEN_MAX then some ⟨K.EBADF, (), s, []⟩
  else
    let of_n := s.fd_table pid fd.toNat
    if of_n = -1 then some ⟨K.EBADF, (), s, []⟩
    else
      match deref K s of_n with
      | none => none
      | some target_of =>
        if target_of.ref_counter > 1 then
          some ⟨0, (),
            { of := setOf s.of of_n.toNat
                (some { target_of with ref_counter := target_of.ref_counter + -1 }),
              fd_table := setFd s.fd_table pid fd.toNat (-1) },
            [Event.lock_acquire LockId.of_table_lock,
             Event.lock_acquire (LockId.of_lock of_n.toNat),
             Event.lock_release (LockId.of_lock of_n.toNat),
             Event.lock_release LockId.of_table_lock]⟩
        else if target_of.ref_counter = 1 then
          some ⟨0, (),
            { of := setOf s.of of_n.toNat none,
              fd_table := setFd s.fd_table pid fd.toNat (-1) },
            [Event.lock_acquire LockId.of_table_lock,
             Event.lock_acquire (LockId.of_lock of_n.toNat),
             Event.vfs_close target_of.v_ptr,
             Event.lock_release (LockId.of_lock of_n.toNat),
             Event.lock_destroy (LockId.of_lock of_n.toNat),
             Event.kfree,
             Event.lock_release LockId.of_table_lock]⟩
        else
          some ⟨0, (),
            { of := s.of,
              fd_table := setFd s.fd_table pid fd.toNat (-1) },
            [Event.lock_acquire LockId.of_table_lock,
             Event.lock_acquire (LockId.of_lock of_n.toNat),
             Event.lock_release LockId.of_table_lock]⟩

/-! ## `sys_read` and `sys_write` -/

/-- The function `sys_read`.  `result`, `uio_offset` and `uio_resid` are what
`VOP_READ` returns and the two fields of the `uio` it leaves behind. -/
def sys_read (K : KConst) (s : KState) (pid : Nat) (fd : Int) (buflen : Int)
    (retval : Int) (result : Int) (uio_offset uio_resid : Int) : Option (Outcome Int) :=
  if fd < 0 ∨ fd ≥ K.OPEN_MAX then some ⟨K.EBADF, retval, s, []⟩
  else
    let of_n := s.fd_table pid fd.toNat
    if of_n = -1 then some ⟨K.EBADF, retval, s, []⟩
    else
      match deref K s of_n with
      | none => none
      | some read_of =>
        let mode_chk := Int.land read_of.flag K.O_ACCMODE
        if mode_chk = K.O_WRONLY then
          some ⟨K.EBADF, retval, s,
            [Event.lock_acquire (LockId.of_lock of_n.toNat),
             Event.lock_release (LockId.of_lock of_n.toNat)]⟩
        else if result ≠ 0 then
          some ⟨result, retval, s,
            [Event.lock_acquire (LockId.of_lock of_n.toNat),
             Event.VOP_READ read_of.v_ptr read_of.offset buflen,
             Event.lock_release (LockId.of_lock of_n.toNat)]⟩
        else
          some ⟨0, toInt32 (buflen - uio_resid),
            { s with of := setOf s.of of_n.toNat (some { read_of with offset := uio_offset }) },
            [Event.lock_acquire (LockId.of_lock of_n.toNat),
             Event.VOP_READ read_of.v_ptr read_of.offset buflen,
             Event.lock_release (LockId.of_lock of_n.toNat)]⟩

/-- The function `sys_write`.  `result`, `uio_offset` and `uio_resid` are what
`VOP_WRITE` returns and the two fields of the `uio` it leaves behind. -/
def sys_write (K : KConst) (s : KState) (pid : Nat) (fd : Int) (nbytes : Int)
    (retval : Int) (result : Int) (uio_offset uio_resid : Int) : Option (Outcome Int) :=
  if fd < 0 ∨ fd ≥ K.OPEN_MAX then some ⟨K.EBADF, retval, s, []⟩
  else
    let of_n := s.fd_table pid fd.toNat
    if of_n = -1 then some ⟨K.EBADF, retval, s, []⟩
    else
      match deref K s of_n with
      | none => none
      | some write_of =>
        let mode_chk := Int.land write_of.flag K.O_ACCMODE
        if mode_chk = K.O_RDONLY then
          some ⟨K.EBADF, retval, s,
            [Event.lock_acquire (LockId.of_lock of_n.toNat),
             Event.lock_release (LockId.of_lock of_n.toNat)]⟩
        else if result ≠ 0 then
          some ⟨result, retval, s,
            [Event.lock_acquire (LockId.of_lock of_n.toNat),
             Event.VOP_WRITE write_of.v_ptr write_of.offset nbytes,
             Event.lock_release (LockId.of_lock of_n.toNat)]⟩
        else
          some ⟨0, toInt32 (nbytes - uio_resid),
            { s with of := setOf s.of of_n.toNat (some { write_of with offset := uio_offset }) },
            [Event.lock_acquire (LockId.of_lock of_n.toNat),
             Event.VOP_WRITE write_of.v_ptr write_of.offset nbytes,
             Event.lock_release (LockId.of_lock of_n.toNat)]⟩

/-! ## `sys_lseek` -/

/-- The function `sys_lseek`.  `seekable` is what `VOP_ISSEEKABLE` answers,
`stat_result` and `st_size` what `VOP_STAT` returns and the size it reports.
Sums of `off_t` values are taken modulo `2^64`. -/
def sys_lseek (K : KConst) (s : KState) (pid : Nat) (fd : Int) (pos : Int) (whence : Int)
    (retval64 : Int) (seekable : Bool) (stat_result : Int) (st_size : Int) :
    Option (Outcome Int) :=
  if fd < 0 ∨ fd ≥ K.OPEN_MAX then some ⟨K.EBADF, retval64, s, []⟩
  else
    let of_n := s.fd_table pid fd.toNat
    if of_n = -1 then some ⟨K.EBADF, retval64, s, []⟩
    else
      match deref K s of_n with
      | none => none
      | some lseek_of =>
        let l := LockId.of_lock of_n.toNat
        let vn := lseek_of.v_ptr
        if ¬ seekable then
          some ⟨K.ESPIPE, retval64, s,
            [Event.lock_acquire l, Event.VOP_ISSEEKABLE vn, Event.lock_release l]⟩
        else if stat_result ≠ 0 then
          some ⟨stat_result, retval64, s,
            [Event.lock_acquire l, Event.VOP_ISSEEKABLE vn, Event.VOP_STAT vn,
             Event.lock_release l]⟩
        else
          let file_eof := st_size
          let evs := [Event.lock_acquire l, Event.VOP_ISSEEKABLE vn, Event.VOP_STAT vn,
             Event.lock_release l]
          let fail : Outcome Int := ⟨K.EINVAL, retval64, s, evs⟩
          let done (new_offset : Int) : Outcome Int :=
            ⟨0, new_offset,
              { s with of := setOf s.of of_n.toNat (some { lseek_of with offset := new_offset }) },
              evs⟩
          if whence = K.SEEK_SET then
            if pos < 0 then some fail else some (done pos)
          else if whence = K.SEEK_CUR then
            if toInt64 (lseek_of.offset + pos) < 0 then some fail
            else some (done (toInt64 (lseek_of.offset + pos)))
          else if whence = K.SEEK_END then
            if toInt64 (file_eof + pos) < 0 then some fail
            else some (done (toInt64 (file_eof + pos)))
          else some fail

/-! ## `sys_dup2` -/

/-- The tail of `sys_dup2`, from `lock_acquire(of_table.of[of_n]->of_lock)` on, run
in the state `s1` that the implicit close (if any) left, after the events `ev1`. -/
def dup2_bind (K : KConst) (s1 : KState) (ev1 : List Event) (pid : Nat) (new_fd : Int)
    (of_n : Int) : Option (Outcome Int) :=
  match deref K s1 of_n with
  | none => none
  | some target =>
    some ⟨0, new_fd,
      { of := setOf s1.of of_n.toNat
          (some { target with ref_counter := target.ref_counter + 1 }),
        fd_table := setFd s1.fd_table pid new_fd.toNat of_n },
      ev1 ++ [Event.lock_acquire (LockId.of_lock of_n.toNat),
              Event.lock_release (LockId.of_lock of_n.toNat)]⟩

/-- The function `sys_dup2`. -/
def sys_dup2 (K : KConst) (s : KState) (pid : Nat) (old_fd new_fd : Int) (retval : Int) :
    Option (Outcome Int) :=
  if old_fd < 0 ∨ old_fd ≥ K.OPEN_MAX then some ⟨K.EBADF, retval, s, []⟩
  else if new_fd < 0 ∨ new_fd ≥ K.OPEN_MAX then some ⟨K.EBADF, retval, s, []⟩
  else
    let of_n := s.fd_table pid old_fd.toNat
    if of_n = -1 then some ⟨K.EBADF, retval, s, []⟩
    else if old_fd = new_fd then some ⟨0, retval, s, []⟩
    else if s.fd_table pid new_fd.toNat ≠ -1 then
      match sys_close K s pid new_fd with
      | none => none
      | some c =>
        if c.ret ≠ 0 then some ⟨c.ret, retval, c.st, c.ev⟩
        else dup2_bind K c.st c.ev pid new_fd of_n
    else dup2_bind K s [] pid new_fd of_n

/-! ## Sequences of system calls -/

/-- One system call together with the process that makes it and the answers of the
subsystems it calls. -/
inductive Call where
  | any_open (pid : Nat) (filename : String) (flags mode retval vfs_result : Int)
      (new_vnode : Nat) (kmalloc_ok lock_ok : Bool)
  | sys_open (pid : Nat) (filename : Nat) (flags mode retval copy_result : Int)
      (new_filename : String)
      (vfs_result : Int) (new_vnode : Nat) (kmalloc_ok lock_ok : Bool)
  | sys_close (pid : Nat) (fd : Int)
  | sys_read (pid : Nat) (fd buflen retval result uio_offset uio_resid : Int)
  | sys_write (pid : Nat) (fd nbytes retval result uio_offset uio_resid : Int)
  | sys_lseek (pid : Nat) (fd pos whence retval64 : Int) (seekable : Bool)
      (stat_result st_size : Int)
  | sys_dup2 (pid : Nat) (old_fd new_fd retval : Int)

/-- The process that makes the call. -/
def Call.pid : Call → Nat
  | .any_open pid .. => pid
  | .sys_open pid .. => pid
  | .sys_close pid .. => pid
  | .sys_read pid .. => pid
  | .sys_write pid .. => pid
  | .sys_lseek pid .. => pid
  | .sys_dup2 pid .. => pid

/-- The state after one call; `none` when the call has no defined result. -/
def exec (K : KConst) (s : KState) : Call → Option KState
  | .any_open pid filename flags mode retval vfs_result new_vnode kmalloc_ok lock_ok =>
    some (any_open K s pid filename flags mode retval vfs_result new_vnode
      kmalloc_ok lock_ok).st
  | .sys_open pid filename flags mode retval copy_result new_filename vfs_result new_vnode
      kmalloc_ok lock_ok =>
    some (sys_open K s pid filename flags mode retval copy_result new_filename vfs_result
      new_vnode kmalloc_ok lock_ok).st
  | .sys_close pid fd => (sys_close K s pid fd).map Outcome.st
  | .sys_read pid fd buflen retval result uio_offset uio_resid =>
    (sys_read K s pid fd buflen retval result uio_offset uio_resid).map Outcome.st
  | .sys_write pid fd nbytes retval result uio_offset uio_resid =>
    (sys_write K s pid fd nbytes retval result uio_offset uio_resid).map Outcome.st
  | .sys_lseek pid fd pos whence retval64 seekable stat_result st_size =>
    (sys_lseek K s pid fd pos whence retval64 seekable stat_result st_size).map Outcome.st
  | .sys_dup2 pid old_fd new_fd retval =>
    (sys_dup2 K s pid old_fd new_fd retval).map Outcome.st

/-- The state after a sequence of calls executed one at a time. -/
def run (K : KConst) : List Call → KState → Option KState
  | [], s => some s
  | c :: cs, s => (exec K s c).bind (run K cs)

/-- The number of descriptor-table cells, over the processes `0 .. nproc - 1`, that
hold the Directory index `j`. -/
def refs (K : KConst) (nproc : Nat) (s : KState) (j : Nat) : Nat :=
  ((Finset.range nproc ×ˢ Finset.range K.OPEN_MAX).filter
    (fun c => s.fd_table c.1 c.2 = (j : Int))).card

/-- The calls to `vfs_close` among the events, by vnode. -/
def vfs_closes : List Event → List Nat
  | [] => []
  | Event.vfs_close vn :: es => vn :: vfs_closes es
  | _ :: es => vfs_closes es

/-- Whether an event is a call into the filesystem layer. -/
def Event.isFs : Event → Bool
  | .vfs_open .. => true
  | .vfs_close .. => true
  | .VOP_READ .. => true
  | .VOP_WRITE .. => true
  | .VOP_ISSEEKABLE .. => true
  | .VOP_STAT .. => true
  | _ => false

/-- The calls into the filesystem layer among the events. -/
def fsCalls (ev : List Event) : List Event := ev.filter Event.isFs

/-! ## Locks along a sequence of events -/

/-- The locks held after the events, when `held` are held before them, most recently
acquired first. -/
def locksHeld : List LockId → List Event → List LockId
  | held, [] => held
  | held, Event.lock_acquire l :: es => locksHeld (l :: held) es
  | held, Event.lock_release l :: es => locksHeld (held.erase l) es
  | held, _ :: es => locksHeld held es

/-- Whether every `lock_destroy` among the events destroys a lock that is not held
at that point, when `held` are held before the events. -/
def destroysReleased : List LockId → List Event → Bool
  | _, [] => true
  | held, Event.lock_acquire l :: es => destroysReleased (l :: held) es
  | held, Event.lock_release l :: es => destroysReleased (held.erase l) es
  | held, Event.lock_destroy l :: es => !held.contains l && destroysReleased held es
  | held, _ :: es => destroysReleased held es

/-- The locks acquired by the events, in the order of acquisition. -/
def acquired : List Event → List LockId
  | [] => []
  | Event.lock_acquire l :: es => l :: acquired es
  | _ :: es => acquired es

/-- The calls into the filesystem layer that the events make while `of_table_lock`
is held; `held` says whether it is held before the events. -/
def fsUnderTableLock : Bool → List Event → List Event
  | _, [] => []
  | held, e :: es =>
    match e with
    | Event.lock_acquire LockId.of_table_lock => fsUnderTableLock true es
    | Event.lock_release LockId.of_table_lock => fsUnderTableLock false es
    | _ =>
      if held && e.isFs then e :: fsUnderTableLock held es
      else fsUnderTableLock held es

/-- A small state for examples: process 0 has descriptor 0 bound to Directory cell 2
(vnode 7, opened `O_RDWR`, offset 10) and descriptor 1 bound to Directory cell 1
(vnode 8, opened `O_RDONLY`, offset 0). -/
def twoFiles : KState where
  of := setOf (setOf (fun _ => none) 2 (some ⟨10, 7, 2, 1⟩)) 1 (some ⟨0, 8, 0, 1⟩)
  fd_table := setFd (setFd (fun _ _ => -1) 0 0 2) 0 1 1

/-- A small state for examples, for a table of four cells: every descriptor of
process 0 is bound to Directory cell 0, whose record counts the four references. -/
def fullTable : KState where
  of := setOf (fun _ => none) 0 (some ⟨0, 7, 2, 4⟩)
  fd_table := fun p _ => if p = 0 then 0 else -1

/-- The two table invariants of the data model, over the processes
`0 .. nproc - 1`: a bound descriptor cell holds the index of a non-empty Directory
cell, and the record of a non-empty Directory cell counts the descriptor cells
that hold its index, of which there is at least one. -/
structure WF (K : KConst) (nproc : Nat) (s : KState) : Prop where
  bound : ∀ p fd, p < nproc → fd < K.OPEN_MAX → s.fd_table p fd ≠ -1 →
    ∃ r, deref K s (s.fd_table p fd) = some r
  count : ∀ j r, j < K.OPEN_MAX → s.of j = some r → r.ref_counter = (refs K nproc s j : Int)
  pos : ∀ j r, j < K.OPEN_MAX → s.of j = some r → 1 ≤ r.ref_counter

/-! ## Basic facts about the embedding -/

theorem scanFrom_some {p : Nat → Bool} {n i k : Nat} (h : scanFrom p n i = some k) :
    i ≤ k ∧ k < i + n ∧ p k = true ∧ ∀ j, i ≤ j → j < k → p j = false := by
  induction n generalizing i with
  | zero => simp [scanFrom] at h
  | succ n ih =>
    unfold scanFrom at h
    by_cases hp : p i = true
    · simp only [hp, if_true, Option.some.injEq] at h
      subst h
      exact ⟨le_refl _, by omega, hp, fun j h1 h2 => by omega⟩
    · simp only [hp] at h
      obtain ⟨h1, h2, h3, h4⟩ := ih h
      refine ⟨by omega, by omega, h3, fun j hj hjk => ?_⟩
      by_cases hji : j = i
      · subst hji; simpa using hp
      · exact h4 j (by omega) hjk

theorem scanFrom_none {p : Nat → Bool} {n i : Nat} (h : scanFrom p n i = none) :
    ∀ j, i ≤ j → j < i + n → p j = false := by
  induction n generalizing i with
  | zero => intro j h1 h2; omega
  | succ n ih =>
    unfold scanFrom at h
    by_cases hp : p i = true
    · simp [hp] at h
    · simp only [hp] at h
      intro j h1 h2
      by_cases hji : j = i
      · subst hji; simpa using hp
      · exact ih h j (by omega) (by omega)

@[simp] theorem setOf_same (o : Nat → Option open_file) (j : Nat) (v : Option open_file) :
    setOf o j v j = v := by simp [setOf]

theorem setOf_other (o : Nat → Option open_file) {j k : Nat} (v : Option open_file)
    (h : k ≠ j) : setOf o j v k = o k := by simp [setOf, h]

@[simp] theorem setFd_same (t : Nat → Nat → Int) (pid fd : Nat) (v : Int) :
    setFd t pid fd v pid fd = v := by simp [setFd]

theorem setFd_other (t : Nat → Nat → Int) {pid fd p i : Nat} (v : Int)
    (h : ¬ (p = pid ∧ i = fd)) : setFd t pid fd v p i = t p i := by simp [setFd, h]

theorem refs_eq_sum (K : KConst) (nproc : Nat) (s : KState) (j : Nat) :
    refs K nproc s j = ∑ c in Finset.range nproc ×ˢ Finset.range K.OPEN_MAX,
      (if s.fd_table c.1 c.2 = (j : Int) then 1 else 0) := by
  unfold refs
  rw [Finset.card_filter]

/-- Writing one descriptor cell moves one reference from the old content of the cell
to the new one. -/
theorem refs_setFd (K : KConst) (nproc : Nat) (s : KState) (o : Nat → Option open_file)
    {pid fd : Nat} (v : Int) (j : Nat) (hp : pid < nproc) (hfd : fd < K.OPEN_MAX) :
    refs K nproc { of := o, fd_table := setFd s.fd_table pid fd v } j
        + (if s.fd_table pid fd = (j : Int) then 1 else 0)
      = refs K nproc s j + (if v = (j : Int) then 1 else 0) := by
  have hmem : (pid, fd) ∈ Finset.range nproc ×ˢ Finset.range K.OPEN_MAX := by
    simp [hp, hfd]
  rw [refs_eq_sum, refs_eq_sum, ← Finset.add_sum_erase _ _ hmem, ← Finset.add_sum_erase _ _ hmem]
  have hrest : ∑ c in (Finset.range nproc ×ˢ Finset.range K.OPEN_MAX).erase (pid, fd),
        (if setFd s.fd_table pid fd v c.1 c.2 = (j : Int) then 1 else 0)
      = ∑ c in (Finset.range nproc ×ˢ Finset.range K.OPEN_MAX).erase (pid, fd),
        (if s.fd_table c.1 c.2 = (j : Int) then 1 else 0) := by
    apply Finset.sum_congr rfl
    intro c hc
    have hne : c ≠ (pid, fd) := (Finset.mem_erase.mp hc).1
    have : ¬ (c.1 = pid ∧ c.2 = fd) := fun h => hne (Prod.ext h.1 h.2)
    rw [setFd_other _ _ this]
  simp only [setFd_same]
  rw [hrest]
  omega

theorem refs_of_irrel (K : KConst) (nproc : Nat) (s : KState) (o : Nat → Option open_file)
    (j : Nat) : refs K nproc { of := o, fd_table := s.fd_table } j = refs K nproc s j := rfl

/-- A descriptor cell that holds `j` is counted by `refs`. -/
theorem refs_pos (K : KConst) (nproc : Nat) (s : KState) {pid fd j : Nat}
    (hp : pid < nproc) (hfd : fd < K.OPEN_MAX) (h : s.fd_table pid fd = (j : Int)) :
    1 ≤ refs K nproc s j := by
  unfold refs
  apply Finset.card_pos.mpr
  exact ⟨(pid, fd), by simp [hp, hfd, h]⟩

/-- Two distinct descriptor cells that hold `j` are both counted by `refs`. -/
theorem refs_two (K : KConst) (nproc : Nat) (s : KState) {pid fd fd2 j : Nat}
    (hp : pid < nproc) (hfd : fd < K.OPEN_MAX) (hfd2 : fd2 < K.OPEN_MAX) (hne : fd ≠ fd2)
    (h : s.fd_table pid fd = (j : Int)) (h2 : s.fd_table pid fd2 = (j : Int)) :
    2 ≤ refs K nproc s j := by
  unfold refs
  have hsub : ({(pid, fd), (pid, fd2)} : Finset (Nat × Nat)) ⊆
      (Finset.range nproc ×ˢ Finset.range K.OPEN_MAX).filter
        (fun c => s.fd_table c.1 c.2 = (j : Int)) := by
    intro c hc
    simp only [Finset.mem_insert, Finset.mem_singleton] at hc
    rcases hc with rfl | rfl <;> simp [hp, hfd, hfd2, h, h2]
  have hcard : ({(pid, fd), (pid, fd2)} : Finset (Nat × Nat)).card = 2 := by
    rw [Finset.card_pair]
    intro heq
    exact hne (Prod.mk.inj heq).2
  calc 2 = ({(pid, fd), (pid, fd2)} : Finset (Nat × Nat)).card := hcard.symm
    _ ≤ _ := Finset.card_le_card hsub

/-- No descriptor cell holds `j` when `refs` is zero. -/
theorem refs_zero (K : KConst) (nproc : Nat) (s : KState) {pid fd j : Nat}
    (hp : pid < nproc) (hfd : fd < K.OPEN_MAX) (h : refs K nproc s j = 0) :
    s.fd_table pid fd ≠ (j : Int) := by
  intro hc
  have := refs_pos K nproc s hp hfd hc
  omega

theorem deref_some {K : KConst} {s : KState} {of_n : Int} {r : open_file}
    (h : deref K s of_n = some r) :
    0 ≤ of_n ∧ of_n < K.OPEN_MAX ∧ of_n.toNat < K.OPEN_MAX ∧ s.of of_n.toNat = some r := by
  unfold deref at h
  split at h
  · rename_i hc
    exact ⟨hc.1, hc.2, by omega, h⟩
  · simp at h

theorem deref_of_nat {K : KConst} {s : KState} {j : Nat} (hj : j < K.OPEN_MAX) :
    deref K s (j : Int) = s.of j := by
  unfold deref
  have : (0 : Int) ≤ (j : Int) ∧ (j : Int) < (K.OPEN_MAX : Int) := ⟨by omega, by omega⟩
  simp [this]

/-- The three ways `sys_close` ends on a descriptor in range whose cell is bound to
a record. -/
theorem sys_close_bound {K : KConst} {s : KState} {pid : Nat} {fd : Int} {r : open_file}
    (h0 : 0 ≤ fd) (h1 : fd < K.OPEN_MAX) (hb : s.fd_table pid fd.toNat ≠ -1)
    (hd : deref K s (s.fd_table pid fd.toNat) = some r) :
    sys_close K s pid fd =
      if r.ref_counter > 1 then
        some ⟨0, (),
          { of := setOf s.of (s.fd_table pid fd.toNat).toNat
              (some { r with ref_counter := r.ref_counter + -1 }),
            fd_table := setFd s.fd_table pid fd.toNat (-1) },
          [Event.lock_acquire LockId.of_table_lock,
           Event.lock_acquire (LockId.of_lock (s.fd_table pid fd.toNat).toNat),
           Event.lock_release (LockId.of_lock (s.fd_table pid fd.toNat).toNat),
           Event.lock_release LockId.of_table_lock]⟩
      else if r.ref_counter = 1 then
        some ⟨0, (),
          { of := setOf s.of (s.fd_table pid fd.toNat).toNat none,
            fd_table := setFd s.fd_table pid fd.toNat (-1) },
          [Event.lock_acquire LockId.of_table_lock,
           Event.lock_acquire (LockId.of_lock (s.fd_table pid fd.toNat).toNat),
           Event.vfs_close r.v_ptr,
           Event.lock_release (LockId.of_lock (s.fd_table pid fd.toNat).toNat),
           Event.lock_destroy (LockId.of_lock (s.fd_table pid fd.toNat).toNat),
           Event.kfree,
           Event.lock_release LockId.of_table_lock]⟩
      else
        some ⟨0, (),
          { of := s.of,
            fd_table := setFd s.fd_table pid fd.toNat (-1) },
          [Event.lock_acquire LockId.of_table_lock,
           Event.lock_acquire (LockId.of_lock (s.fd_table pid fd.toNat).toNat),
           Event.lock_release LockId.of_table_lock]⟩ := by
  have hr : ¬ (fd < 0 ∨ fd ≥ K.OPEN_MAX) := by omega
  simp only [sys_close, hr, if_false, hb, hd]

/-! ## C4: `sys_close` on a bound descriptor -/

/-- C4: for a descriptor `fd` in range whose cell is bound to a record with
`ref_counter` `r ≥ 1`, `sys_close` returns 0 and unbinds the cell; when `r > 1` the
record stays in its Directory cell with `ref_counter` `r - 1` and the other fields
unchanged and `vfs_close` is not called; when `r = 1` the Directory cell becomes
empty and `vfs_close` is called exactly once, on the record's vnode; every other
descriptor cell and Directory cell is unchanged. -/
theorem sys_close_effect (K : KConst) (s : KState) (pid : Nat) (fd : Int) (r : open_file)
    (h0 : 0 ≤ fd) (h1 : fd < K.OPEN_MAX) (hb : s.fd_table pid fd.toNat ≠ -1)
    (hd : deref K s (s.fd_table pid fd.toNat) = some r) (hr : 1 ≤ r.ref_counter) :
    ∃ out, sys_close K s pid fd = some out ∧ out.ret = 0 ∧
      out.st.fd_table pid fd.toNat = -1 ∧
      (∀ p i, ¬ (p = pid ∧ i = fd.toNat) → out.st.fd_table p i = s.fd_table p i) ∧
      (∀ k, k ≠ (s.fd_table pid fd.toNat).toNat → out.st.of k = s.of k) ∧
      (1 < r.ref_counter →
        out.st.of (s.fd_table pid fd.toNat).toNat =
            some { offset := r.offset, v_ptr := r.v_ptr, flag := r.flag,
                   ref_counter := r.ref_counter - 1 } ∧
          vfs_closes out.ev = []) ∧
      (r.ref_counter = 1 →
        out.st.of (s.fd_table pid fd.toNat).toNat = none ∧
          vfs_closes out.ev = [r.v_ptr]) := by
  rw [sys_close_bound h0 h1 hb hd]
  by_cases hgt : r.ref_counter > 1
  · rw [if_pos hgt]
    refine ⟨_, rfl, rfl, by simp, fun p i h => setFd_other _ _ h,
      fun k hk => setOf_other _ _ hk, fun _ => ⟨by simp; rfl, rfl⟩, fun h => by omega⟩
  · have h1 : r.ref_counter = 1 := by omega
    rw [if_neg hgt, if_pos h1]
    refine ⟨_, rfl, rfl, by simp, fun p i h => setFd_other _ _ h,
      fun k hk => setOf_other _ _ hk, fun h => by omega, fun _ => ⟨by simp, rfl⟩⟩

/-- C4, at a concrete input: a record shared by descriptors 0 and 1 of process 0 is
closed through descriptor 1. -/
theorem sys_close_effect_witness :
    ∃ out, sys_close tiny
        { of := setOf (fun _ => none) 2 (some ⟨10, 7, 2, 2⟩),
          fd_table := setFd (setFd (fun _ _ => -1) 0 0 2) 0 1 2 } 0 1 = some out ∧
      out.ret = 0 ∧ out.st.fd_table 0 1 = -1 ∧ out.st.of 2 = some ⟨10, 7, 2, 1⟩ ∧
      vfs_closes out.ev = [] := by
  obtain ⟨out, h1, h2, h3, _, _, h6, _⟩ := sys_close_effect tiny
    { of := setOf (fun _ => none) 2 (some ⟨10, 7, 2, 2⟩),
      fd_table := setFd (setFd (fun _ _ => -1) 0 0 2) 0 1 2 } 0 1 ⟨10, 7, 2, 2⟩
    (by decide) (by decide) (by decide) (by decide) (by decide)
  exact ⟨out, h1, h2, h3, (h6 (by decide)).1, (h6 (by decide)).2⟩

/-! ## C3 and C6: `any_open` -/

/-- C3: whenever `any_open` returns 0, the descriptor it stores in `*retval` is the
smallest index whose cell was unbound in the calling process; that cell now holds
the index of a Directory cell that was empty; that Directory cell holds a new record
with offset 0, `ref_counter` 1, the caller's flags and the vnode that `vfs_open`
answered; every other descriptor cell and Directory cell is unchanged. -/
theorem any_open_success (K : KConst) (s : KState) (pid : Nat) (filename : String)
    (flags mode retval vfs_result : Int) (new_vnode : Nat) (kmalloc_ok lock_ok : Bool)
    (out : Outcome Int)
    (hout : any_open K s pid filename flags mode retval vfs_result new_vnode
      kmalloc_ok lock_ok = out)
    (hret : out.ret = 0) :
    ∃ fd of_n : Nat,
      out.out = (fd : Int) ∧ fd < K.OPEN_MAX ∧ s.fd_table pid fd = -1 ∧
      (∀ i, i < fd → s.fd_table pid i ≠ -1) ∧
      of_n < K.OPEN_MAX ∧ s.of of_n = none ∧
      out.st.fd_table pid fd = (of_n : Int) ∧
      out.st.of of_n =
        some { offset := 0, v_ptr := new_vnode, flag := flags, ref_counter := 1 } ∧
      vfs_result = 0 ∧ Event.vfs_open filename flags mode ∈ out.ev ∧
      (∀ p i, ¬ (p = pid ∧ i = fd) → out.st.fd_table p i = s.fd_table p i) ∧
      (∀ k, k ≠ of_n → out.st.of k = s.of k) := by
  obtain ⟨e1, e2, e3, _, _⟩ := K.errno_ne_zero
  subst hout
  rcases hfd : scanFrom (fun i => s.fd_table pid i == -1) K.OPEN_MAX 0 with _ | fd
  · simp [any_open, hfd] at hret; exact absurd hret e1
  by_cases hm : Int.land flags K.O_ACCMODE = K.O_RDONLY ∨
      Int.land flags K.O_ACCMODE = K.O_WRONLY ∨ Int.land flags K.O_ACCMODE = K.O_RDWR
  swap
  · simp [any_open, hfd, hm] at hret; exact absurd hret e2
  by_cases hv : vfs_result = 0
  swap
  · simp [any_open, hfd, hm, hv] at hret
  rcases hof : scanFrom (fun j => (s.of j).isNone) K.OPEN_MAX 0 with _ | of_n
  · simp [any_open, hfd, hm, hv, hof] at hret; exact absurd hret e1
  cases kmalloc_ok
  · simp [any_open, hfd, hm, hv, hof] at hret; exact absurd hret e3
  cases lock_ok
  · simp [any_open, hfd, hm, hv, hof] at hret; exact absurd hret e3
  obtain ⟨_, f2, f3, f4⟩ := scanFrom_some hfd
  obtain ⟨_, g2, g3, _⟩ := scanFrom_some hof
  refine ⟨fd, of_n, ?_⟩
  simp only [any_open, hfd, hm, hv, hof]
  refine ⟨by simp, by omega, by simpa using f3, ?_, by omega, by simpa using g3, by simp,
    by simp, trivial, by simp, ?_, ?_⟩
  · intro i hi
    have := f4 i (Nat.zero_le _) hi
    simpa using this
  · intro p i h
    simp [setFd_other _ _ h]
  · intro k hk
    simp [setOf_other _ _ hk]

/-- C3, at a concrete input: the first `open` of a process on the empty table. -/
theorem any_open_success_witness :
    ∃ fd of_n : Nat,
      (any_open tiny initState 0 "/f" 2 0 99 0 7 true true).out = (fd : Int) ∧
      fd < tiny.OPEN_MAX ∧ initState.fd_table 0 fd = -1 ∧
      (∀ i, i < fd → initState.fd_table 0 i ≠ -1) ∧
      of_n < tiny.OPEN_MAX ∧ initState.of of_n = none ∧
      (any_open tiny initState 0 "/f" 2 0 99 0 7 true true).st.fd_table 0 fd = (of_n : Int) ∧
      (any_open tiny initState 0 "/f" 2 0 99 0 7 true true).st.of of_n =
        some { offset := 0, v_ptr := 7, flag := 2, ref_counter := 1 } ∧
      (0 : Int) = 0 ∧
      Event.vfs_open "/f" 2 0 ∈ (any_open tiny initState 0 "/f" 2 0 99 0 7 true true).ev ∧
      (∀ p i, ¬ (p = 0 ∧ i = fd) →
        (any_open tiny initState 0 "/f" 2 0 99 0 7 true true).st.fd_table p i
          = initState.fd_table p i) ∧
      (∀ k, k ≠ of_n →
        (any_open tiny initState 0 "/f" 2 0 99 0 7 true true).st.of k = initState.of k) :=
  any_open_success tiny initState 0 "/f" 2 0 99 0 7 true true _ rfl (by decide)

/-- C6: every call of `any_open` that returns an error leaves the descriptor tables
and the Directory as they were and leaves no vnode open: when `vfs_open` was not
reached the filesystem layer is not called; when `vfs_open` fails its error is
returned unchanged and nothing else is called; when the failure comes after
`vfs_open` succeeded, `vfs_close` is called exactly once, on the vnode `vfs_open`
answered, a full Directory is reported as `ENFILE`, and otherwise the failure is an
allocation failure reported as `ENOMEM`. -/
theorem any_open_failure (K : KConst) (s : KState) (pid : Nat) (filename : String)
    (flags mode retval vfs_result : Int) (new_vnode : Nat) (kmalloc_ok lock_ok : Bool)
    (out : Outcome Int)
    (hout : any_open K s pid filename flags mode retval vfs_result new_vnode
      kmalloc_ok lock_ok = out)
    (hret : out.ret ≠ 0) :
    out.st = s ∧ out.out = retval ∧
      (Event.vfs_open filename flags mode ∉ out.ev → fsCalls out.ev = []) ∧
      (Event.vfs_open filename flags mode ∈ out.ev → vfs_result ≠ 0 →
        out.ret = vfs_result ∧ fsCalls out.ev = [Event.vfs_open filename flags mode]) ∧
      (Event.vfs_open filename flags mode ∈ out.ev → vfs_result = 0 →
        fsCalls out.ev = [Event.vfs_open filename flags mode, Event.vfs_close new_vnode] ∧
        ((∀ j, j < K.OPEN_MAX → s.of j ≠ none) → out.ret = K.ENFILE) ∧
        ((∃ j, j < K.OPEN_MAX ∧ s.of j = none) →
          (kmalloc_ok = false ∨ lock_ok = false) ∧ out.ret = K.ENOMEM)) := by
  subst hout
  rcases hfd : scanFrom (fun i => s.fd_table pid i == -1) K.OPEN_MAX 0 with _ | fd
  · simp [any_open, hfd, fsCalls]
  by_cases hm : Int.land flags K.O_ACCMODE = K.O_RDONLY ∨
      Int.land flags K.O_ACCMODE = K.O_WRONLY ∨ Int.land flags K.O_ACCMODE = K.O_RDWR
  swap
  · simp [any_open, hfd, hm, fsCalls]
  by_cases hv : vfs_result = 0
  swap
  · simp [any_open, hfd, hm, hv, fsCalls, Event.isFs]
  rcases hof : scanFrom (fun j => (s.of j).isNone) K.OPEN_MAX 0 with _ | of_n
  · have hfull := scanFrom_none hof
    simp only [any_open, hfd, hm, hv, hof]
    refine ⟨rfl, rfl, by simp, by simp, fun _ _ => ⟨by simp [fsCalls, Event.isFs], fun _ => rfl, ?_⟩⟩
    rintro ⟨j, hj, hnone⟩
    have := hfull j (Nat.zero_le _) (by omega)
    simp [hnone] at this
  obtain ⟨_, g2, g3, _⟩ := scanFrom_some hof
  have hfree : ¬ ∀ j, j < K.OPEN_MAX → s.of j ≠ none := by
    intro hall
    exact hall of_n (by omega) (by simpa using g3)
  cases kmalloc_ok
  · simp only [any_open, hfd, hm, hv, hof]
    refine ⟨rfl, rfl, by simp, by simp, fun _ _ => ⟨by simp [fsCalls, Event.isFs],
      fun h => absurd h hfree, fun _ => by simp⟩⟩
  cases lock_ok
  · simp only [any_open, hfd, hm, hv, hof]
    refine ⟨rfl, rfl, by simp, by simp, fun _ _ => ⟨by simp [fsCalls, Event.isFs],
      fun h => absurd h hfree, fun _ => by simp⟩⟩
  · simp [any_open, hfd, hm, hv, hof] at hret

/-- C6, at a concrete input: the record allocation fails after `vfs_open` answered
vnode 7. -/
theorem any_open_failure_witness :
    (any_open tiny initState 0 "/f" 2 0 99 0 7 false true).ret = tiny.ENOMEM ∧
      fsCalls (any_open tiny initState 0 "/f" 2 0 99 0 7 false true).ev
        = [Event.vfs_open "/f" 2 0, Event.vfs_close 7] ∧
      (any_open tiny initState 0 "/f" 2 0 99 0 7 false true).out = 99 :=
  have h := any_open_failure tiny initState 0 "/f" 2 0 99 0 7 false true _ rfl (by decide)
  ⟨((h.2.2.2.2 (by decide) rfl).2.2 ⟨0, by decide, rfl⟩).2,
    (h.2.2.2.2 (by decide) rfl).1, h.2.1⟩

/-! ## C7: `sys_open` and the result of `copyinstr` -/

/-- C7, evaluated: process 0 calls `sys_open` with the user address 0 (`NULL`);
`copyinstr` reports error 6 (a bad user address) and leaves the kernel buffer with
the content `""`; `sys_open` nevertheless calls `vfs_open` on the buffer, returns 0
instead of that error, and binds descriptor 0 to a new record. -/
theorem sys_open_ignores_copyinstr_error :
    (sys_open os161 initState 0 0 0 0 (-1) 6 "" 0 7 true true).ret = 0 ∧
      (sys_open os161 initState 0 0 0 0 (-1) 6 "" 0 7 true true).out = 0 ∧
      (sys_open os161 initState 0 0 0 0 (-1) 6 "" 0 7 true true).st.fd_table 0 0 = 0 ∧
      (sys_open os161 initState 0 0 0 0 (-1) 6 "" 0 7 true true).st.of 0
        = some { offset := 0, v_ptr := 7, flag := 0, ref_counter := 1 } ∧
      (sys_open os161 initState 0 0 0 0 (-1) 6 "" 0 7 true true).ev.take 2
        = [Event.copyinstr 0 6, Event.vfs_open "" 0 0] := by
  decide

/-! ## C8: descriptors out of range and unbound descriptors -/

/-- C8, as stated, fails: a descriptor number outside `[0, OPEN_MAX)` makes each of
the five calls return `EBADF` (30), which is not `EINVAL` (8). -/
theorem out_of_range_descriptor_not_EINVAL :
    (sys_close os161 initState 0 (-1)).map Outcome.ret = some os161.EBADF ∧
      (sys_read os161 initState 0 128 10 0 0 0 0).map Outcome.ret = some os161.EBADF ∧
      (sys_write os161 initState 0 (-1) 10 0 0 0 0).map Outcome.ret = some os161.EBADF ∧
      (sys_lseek os161 initState 0 128 0 0 0 true 0 0).map Outcome.ret = some os161.EBADF ∧
      (sys_dup2 os161 initState 0 (-1) 1 0).map Outcome.ret = some os161.EBADF ∧
      (sys_dup2 os161 initState 0 1 128 0).map Outcome.ret = some os161.EBADF ∧
      os161.EBADF ≠ os161.EINVAL := by
  decide

/-- C8, amended: for each of close, read, write, lseek and dup2, a descriptor number
outside `[0, OPEN_MAX)` (for dup2: either argument) and a descriptor in range whose
cell is unbound (for dup2: `old_fd`) are both reported with `EBADF`; the state and
the result cell are left as they were and no call leaves the function. -/
theorem bad_descriptor_EBADF (K : KConst) (s : KState) (pid : Nat) (fd : Int)
    (hbad : fd < 0 ∨ (K.OPEN_MAX : Int) ≤ fd ∨ s.fd_table pid fd.toNat = -1) :
    sys_close K s pid fd = some ⟨K.EBADF, (), s, []⟩ ∧
      (∀ buflen retval result uio_offset uio_resid,
        sys_read K s pid fd buflen retval result uio_offset uio_resid
          = some ⟨K.EBADF, retval, s, []⟩) ∧
      (∀ nbytes retval result uio_offset uio_resid,
        sys_write K s pid fd nbytes retval result uio_offset uio_resid
          = some ⟨K.EBADF, retval, s, []⟩) ∧
      (∀ pos whence retval64 seekable stat_result st_size,
        sys_lseek K s pid fd pos whence retval64 seekable stat_result st_size
          = some ⟨K.EBADF, retval64, s, []⟩) ∧
      (∀ new_fd retval,
        sys_dup2 K s pid fd new_fd retval = some ⟨K.EBADF, retval, s, []⟩) ∧
      (∀ old_fd retval, (fd < 0 ∨ (K.OPEN_MAX : Int) ≤ fd) →
        sys_dup2 K s pid old_fd fd retval = some ⟨K.EBADF, retval, s, []⟩) := by
  refine ⟨?_, ?_, ?_, ?_, ?_, ?_⟩
  · unfold sys_close
    by_cases hr : fd < 0 ∨ fd ≥ K.OPEN_MAX
    · simp [hr]
    · have hu : s.fd_table pid fd.toNat = -1 := by omega
      simp [hr, hu]
  · intro buflen retval result uio_offset uio_resid
    unfold sys_read
    by_cases hr : fd < 0 ∨ fd ≥ K.OPEN_MAX
    · simp [hr]
    · have hu : s.fd_table pid fd.toNat = -1 := by omega
      simp [hr, hu]
  · intro nbytes retval result uio_offset uio_resid
    unfold sys_write
    by_cases hr : fd < 0 ∨ fd ≥ K.OPEN_MAX
    · simp [hr]
    · have hu : s.fd_table pid fd.toNat = -1 := by omega
      simp [hr, hu]
  · intro pos whence retval64 seekable stat_result st_size
    unfold sys_lseek
    by_cases hr : fd < 0 ∨ fd ≥ K.OPEN_MAX
    · simp [hr]
    · have hu : s.fd_table pid fd.toNat = -1 := by omega
      simp [hr, hu]
  · intro new_fd retval
    unfold sys_dup2
    by_cases hr : fd < 0 ∨ fd ≥ K.OPEN_MAX
    · simp [hr]
    · have hu : s.fd_table pid fd.toNat = -1 := by omega
      by_cases hn : new_fd < 0 ∨ new_fd ≥ K.OPEN_MAX
      · simp [hr, hn]
      · simp [hr, hn, hu]
  · intro old_fd retval hrange
    unfold sys_dup2
    have hn : fd < 0 ∨ fd ≥ K.OPEN_MAX := by omega
    by_cases hr : old_fd < 0 ∨ old_fd ≥ K.OPEN_MAX
    · simp [hr]
    · simp [hr, hn]

/-- C8, amended, at a concrete input: descriptor 3 of a process that has nothing
open. -/
theorem bad_descriptor_EBADF_witness :
    sys_close os161 initState 0 3 = some ⟨os161.EBADF, (), initState, []⟩ ∧
      sys_dup2 os161 initState 0 3 4 77 = some ⟨os161.EBADF, 77, initState, []⟩ :=
  have h := bad_descriptor_EBADF os161 initState 0 3 (Or.inr (Or.inr rfl))
  ⟨h.1, h.2.2.2.2.1 4 77⟩

/-! ## C9 and C10: `sys_read` and `sys_write` on a bound descriptor -/

/-- The three ways `sys_read` ends on a descriptor in range whose cell is bound to a
record. -/
theorem sys_read_bound {K : KConst} {s : KState} {pid : Nat} {fd : Int} {r : open_file}
    (h0 : 0 ≤ fd) (h1 : fd < K.OPEN_MAX) (hb : s.fd_table pid fd.toNat ≠ -1)
    (hd : deref K s (s.fd_table pid fd.toNat) = some r)
    (buflen retval result uio_offset uio_resid : Int) :
    sys_read K s pid fd buflen retval result uio_offset uio_resid =
      if Int.land r.flag K.O_ACCMODE = K.O_WRONLY then
        some ⟨K.EBADF, retval, s,
          [Event.lock_acquire (LockId.of_lock (s.fd_table pid fd.toNat).toNat),
           Event.lock_release (LockId.of_lock (s.fd_table pid fd.toNat).toNat)]⟩
      else if result ≠ 0 then
        some ⟨result, retval, s,
          [Event.lock_acquire (LockId.of_lock (s.fd_table pid fd.toNat).toNat),
           Event.VOP_READ r.v_ptr r.offset buflen,
           Event.lock_release (LockId.of_lock (s.fd_table pid fd.toNat).toNat)]⟩
      else
        some ⟨0, toInt32 (buflen - uio_resid),
          { of := setOf s.of (s.fd_table pid fd.toNat).toNat
              (some { r with offset := uio_offset }),
            fd_table := s.fd_table },
          [Event.lock_acquire (LockId.of_lock (s.fd_table pid fd.toNat).toNat),
           Event.VOP_READ r.v_ptr r.offset buflen,
           Event.lock_release (LockId.of_lock (s.fd_table pid fd.toNat).toNat)]⟩ := by
  have hr : ¬ (fd < 0 ∨ fd ≥ K.OPEN_MAX) := by omega
  simp only [sys_read, hr, if_false, hb, hd]

/-- The three ways `sys_write` ends on a descriptor in range whose cell is bound to
a record. -/
theorem sys_write_bound {K : KConst} {s : KState} {pid : Nat} {fd : Int} {r : open_file}
    (h0 : 0 ≤ fd) (h1 : fd < K.OPEN_MAX) (hb : s.fd_table pid fd.toNat ≠ -1)
    (hd : deref K s (s.fd_table pid fd.toNat) = some r)
    (nbytes retval result uio_offset uio_resid : Int) :
    sys_write K s pid fd nbytes retval result uio_offset uio_resid =
      if Int.land r.flag K.O_ACCMODE = K.O_RDONLY then
        some ⟨K.EBADF, retval, s,
          [Event.lock_acquire (LockId.of_lock (s.fd_table pid fd.toNat).toNat),
           Event.lock_release (LockId.of_lock (s.fd_table pid fd.toNat).toNat)]⟩
      else if result ≠ 0 then
        some ⟨result, retval, s,
          [Event.lock_acquire (LockId.of_lock (s.fd_table pid fd.toNat).toNat),
           Event.VOP_WRITE r.v_ptr r.offset nbytes,
           Event.lock_release (LockId.of_lock (s.fd_table pid fd.toNat).toNat)]⟩
      else
        some ⟨0, toInt32 (nbytes - uio_resid),
          { of := setOf s.of (s.fd_table pid fd.toNat).toNat
              (some { r with offset := uio_offset }),
            fd_table := s.fd_table },
          [Event.lock_acquire (LockId.of_lock (s.fd_table pid fd.toNat).toNat),
           Event.VOP_WRITE r.v_ptr r.offset nbytes,
           Event.lock_release (LockId.of_lock (s.fd_table pid fd.toNat).toNat)]⟩ := by
  have hr : ¬ (fd < 0 ∨ fd ≥ K.OPEN_MAX) := by omega
  simp only [sys_write, hr, if_false, hb, hd]

/-- C9: on a bound descriptor, `sys_write` on a record whose access-mode bits are
`O_RDONLY` and `sys_read` on a record whose access-mode bits are `O_WRONLY` return
`EBADF`, call neither `VOP_WRITE` nor `VOP_READ` and leave the state as it was; for
every other value of the access-mode bits the call reaches `VOP_WRITE`, respectively
`VOP_READ`, on the record's vnode. -/
theorem access_mode_check (K : KConst) (s : KState) (pid : Nat) (fd : Int) (r : open_file)
    (h0 : 0 ≤ fd) (h1 : fd < K.OPEN_MAX) (hb : s.fd_table pid fd.toNat ≠ -1)
    (hd : deref K s (s.fd_table pid fd.toNat) = some r)
    (len retval result uio_offset uio_resid : Int) :
    (Int.land r.flag K.O_ACCMODE = K.O_RDONLY →
      ∃ out, sys_write K s pid fd len retval result uio_offset uio_resid = some out ∧
        out.ret = K.EBADF ∧ out.st = s ∧ out.out = retval ∧ fsCalls out.ev = []) ∧
    (Int.land r.flag K.O_ACCMODE ≠ K.O_RDONLY →
      ∃ out, sys_write K s pid fd len retval result uio_offset uio_resid = some out ∧
        fsCalls out.ev = [Event.VOP_WRITE r.v_ptr r.offset len]) ∧
    (Int.land r.flag K.O_ACCMODE = K.O_WRONLY →
      ∃ out, sys_read K s pid fd len retval result uio_offset uio_resid = some out ∧
        out.ret = K.EBADF ∧ out.st = s ∧ out.out = retval ∧ fsCalls out.ev = []) ∧
    (Int.land r.flag K.O_ACCMODE ≠ K.O_WRONLY →
      ∃ out, sys_read K s pid fd len retval result uio_offset uio_resid = some out ∧
        fsCalls out.ev = [Event.VOP_READ r.v_ptr r.offset len]) := by
  rw [sys_write_bound h0 h1 hb hd, sys_read_bound h0 h1 hb hd]
  refine ⟨fun h => ?_, fun h => ?_, fun h => ?_, fun h => ?_⟩
  · rw [if_pos h]; exact ⟨_, rfl, rfl, rfl, rfl, rfl⟩
  · rw [if_neg h]
    by_cases hres : result ≠ 0
    · rw [if_pos hres]; exact ⟨_, rfl, rfl⟩
    · rw [if_neg hres]; exact ⟨_, rfl, rfl⟩
  · rw [if_pos h]; exact ⟨_, rfl, rfl, rfl, rfl, rfl⟩
  · rw [if_neg h]
    by_cases hres : result ≠ 0
    · rw [if_pos hres]; exact ⟨_, rfl, rfl⟩
    · rw [if_neg hres]; exact ⟨_, rfl, rfl⟩

/-- C9, at a concrete input: descriptor 0 is bound to a record opened `O_RDONLY`;
a write of 10 bytes is refused without a call to the vnode. -/
theorem access_mode_check_witness :
    ∃ out, sys_write os161
        { of := setOf (fun _ => none) 2 (some ⟨5, 7, 0, 1⟩),
          fd_table := setFd (fun _ _ => -1) 0 0 2 } 0 0 10 99 0 15 0 = some out ∧
      out.ret = os161.EBADF ∧
      out.st = { of := setOf (fun _ => none) 2 (some ⟨5, 7, 0, 1⟩),
                 fd_table := setFd (fun _ _ => -1) 0 0 2 } ∧
      out.out = 99 ∧ fsCalls out.ev = [] :=
  (access_mode_check os161
    { of := setOf (fun _ => none) 2 (some ⟨5, 7, 0, 1⟩),
      fd_table := setFd (fun _ _ => -1) 0 0 2 } 0 0 ⟨5, 7, 0, 1⟩
    (by decide) (by decide) (by decide) (by decide) 10 99 0 15 0).1 (by decide)

/-- The function `sys_dup2` when `new_fd` is unbound. -/
theorem sys_dup2_unbound {K : KConst} {s : KState} {pid : Nat} {old_fd new_fd : Int}
    {rs : open_file} (retval : Int)
    (ho0 : 0 ≤ old_fd) (ho1 : old_fd < K.OPEN_MAX) (hn0 : 0 ≤ new_fd)
    (hn1 : new_fd < K.OPEN_MAX) (hne : old_fd ≠ new_fd)
    (hob : s.fd_table pid old_fd.toNat ≠ -1)
    (hds : deref K s (s.fd_table pid old_fd.toNat) = some rs)
    (hnu : s.fd_table pid new_fd.toNat = -1) :
    sys_dup2 K s pid old_fd new_fd retval =
      some ⟨0, new_fd,
        { of := setOf s.of (s.fd_table pid old_fd.toNat).toNat
            (some { rs with ref_counter := rs.ref_counter + 1 }),
          fd_table := setFd s.fd_table pid new_fd.toNat (s.fd_table pid old_fd.toNat) },
        [Event.lock_acquire (LockId.of_lock (s.fd_table pid old_fd.toNat).toNat),
         Event.lock_release (LockId.of_lock (s.fd_table pid old_fd.toNat).toNat)]⟩ := by
  have hr1 : ¬ (old_fd < 0 ∨ old_fd ≥ K.OPEN_MAX) := by omega
  have hr2 : ¬ (new_fd < 0 ∨ new_fd ≥ K.OPEN_MAX) := by omega
  simp [sys_dup2, hr1, hr2, hob, hne, hnu, dup2_bind, hds]

/-- The function `sys_dup2` when `new_fd` is bound and its implicit close returns 0
and leaves a record in the Directory cell of `old_fd`. -/
theorem sys_dup2_bound {K : KConst} {s : KState} {pid : Nat} {old_fd new_fd : Int}
    {c : Outcome Unit} {rc : open_file} (retval : Int)
    (ho0 : 0 ≤ old_fd) (ho1 : old_fd < K.OPEN_MAX) (hn0 : 0 ≤ new_fd)
    (hn1 : new_fd < K.OPEN_MAX) (hne : old_fd ≠ new_fd)
    (hob : s.fd_table pid old_fd.toNat ≠ -1)
    (hnb : s.fd_table pid new_fd.toNat ≠ -1)
    (hc : sys_close K s pid new_fd = some c) (hc0 : c.ret = 0)
    (hdc : deref K c.st (s.fd_table pid old_fd.toNat) = some rc) :
    sys_dup2 K s pid old_fd new_fd retval =
      some ⟨0, new_fd,
        { of := setOf c.st.of (s.fd_table pid old_fd.toNat).toNat
            (some { rc with ref_counter := rc.ref_counter + 1 }),
          fd_table := setFd c.st.fd_table pid new_fd.toNat (s.fd_table pid old_fd.toNat) },
        c.ev ++ [Event.lock_acquire (LockId.of_lock (s.fd_table pid old_fd.toNat).toNat),
         Event.lock_release (LockId.of_lock (s.fd_table pid old_fd.toNat).toNat)]⟩ := by
  have hr1 : ¬ (old_fd < 0 ∨ old_fd ≥ K.OPEN_MAX) := by omega
  have hr2 : ¬ (new_fd < 0 ∨ new_fd ≥ K.OPEN_MAX) := by omega
  simp [sys_dup2, hr1, hr2, hob, hne, hnb, hc, hc0, dup2_bind, hdc]

theorem setFd_setFd (t : Nat → Nat → Int) (pid fd : Nat) (u v : Int) :
    setFd (setFd t pid fd u) pid fd v = setFd t pid fd v := by
  funext p i
  unfold setFd
  split <;> rfl

theorem vfs_closes_append (a b : List Event) :
    vfs_closes (a ++ b) = vfs_closes a ++ vfs_closes b := by
  induction a with
  | nil => rfl
  | cons e es ih => cases e <;> simp [vfs_closes, ih]

theorem fsCalls_append (a b : List Event) : fsCalls (a ++ b) = fsCalls a ++ fsCalls b := by
  simp [fsCalls]

theorem deref_setOf_same (K : KConst) (o : Nat → Option open_file) (t : Nat → Nat → Int)
    {n : Int} (v : Option open_file) (h0 : 0 ≤ n) (h1 : n < K.OPEN_MAX) :
    deref K { of := setOf o n.toNat v, fd_table := t } n = v := by
  unfold deref
  rw [if_pos ⟨h0, h1⟩]
  exact setOf_same _ _ _

theorem deref_setOf_other (K : KConst) (o : Nat → Option open_file) (t : Nat → Nat → Int)
    {n : Int} {j : Nat} (v : Option open_file) (h0 : 0 ≤ n) (h1 : n < K.OPEN_MAX)
    (hne : n.toNat ≠ j) :
    deref K { of := setOf o j v, fd_table := t } n = o n.toNat := by
  unfold deref
  rw [if_pos ⟨h0, h1⟩]
  exact setOf_other _ _ hne

/-- C5: for descriptors `old_fd ≠ new_fd` in range, with `old_fd` bound to the
record of Directory cell `s`, in a state where the `ref_counter` of every record
equals the number of descriptor cells that hold its index: `sys_dup2` returns 0 and
stores `new_fd` in `*retval`; afterwards `old_fd` and `new_fd` both hold `s`; if
`new_fd` was bound, the Directory is what `sys_close(new_fd)` leaves (the record of
`t ≠ s` decremented, or destroyed with one `vfs_close` on its vnode when it was the
last reference) with the `ref_counter` of `s` raised by one, so that the record of
`s` ends one higher when `new_fd` was unbound or bound to `t ≠ s` and unchanged when
`new_fd` was bound to `s`; every other descriptor cell and Directory cell is
unchanged. -/
theorem sys_dup2_effect (K : KConst) (nproc : Nat) (s : KState) (pid : Nat)
    (old_fd new_fd retval : Int) (rs : open_file)
    (hp : pid < nproc)
    (ho0 : 0 ≤ old_fd) (ho1 : old_fd < K.OPEN_MAX)
    (hn0 : 0 ≤ new_fd) (hn1 : new_fd < K.OPEN_MAX)
    (hne : old_fd ≠ new_fd)
    (hob : s.fd_table pid old_fd.toNat ≠ -1)
    (hds : deref K s (s.fd_table pid old_fd.toNat) = some rs)
    (hnew : s.fd_table pid new_fd.toNat ≠ -1 →
      ∃ rt, deref K s (s.fd_table pid new_fd.toNat) = some rt)
    (hcount : ∀ j r, j < K.OPEN_MAX → s.of j = some r →
      r.ref_counter = (refs K nproc s j : Int)) :
    ∃ out, sys_dup2 K s pid old_fd new_fd retval = some out ∧
      out.ret = 0 ∧ out.out = new_fd ∧
      out.st.fd_table pid old_fd.toNat = s.fd_table pid old_fd.toNat ∧
      out.st.fd_table pid new_fd.toNat = s.fd_table pid old_fd.toNat ∧
      (∀ p i, ¬ (p = pid ∧ i = new_fd.toNat) → out.st.fd_table p i = s.fd_table p i) ∧
      (s.fd_table pid new_fd.toNat = -1 →
        out.st.of (s.fd_table pid old_fd.toNat).toNat =
            some { offset := rs.offset, v_ptr := rs.v_ptr, flag := rs.flag,
                   ref_counter := rs.ref_counter + 1 } ∧
          (∀ k, k ≠ (s.fd_table pid old_fd.toNat).toNat → out.st.of k = s.of k) ∧
          fsCalls out.ev = []) ∧
      (s.fd_table pid new_fd.toNat ≠ -1 →
        ∃ c rc, sys_close K s pid new_fd = some c ∧ c.ret = 0 ∧
          c.st.of (s.fd_table pid old_fd.toNat).toNat = some rc ∧
          out.st.of (s.fd_table pid old_fd.toNat).toNat =
            some { offset := rc.offset, v_ptr := rc.v_ptr, flag := rc.flag,
                   ref_counter := rc.ref_counter + 1 } ∧
          (∀ k, k ≠ (s.fd_table pid old_fd.toNat).toNat → out.st.of k = c.st.of k) ∧
          fsCalls out.ev = fsCalls c.ev) ∧
      (s.fd_table pid new_fd.toNat ≠ -1 →
        s.fd_table pid new_fd.toNat = s.fd_table pid old_fd.toNat →
        out.st.of = s.of ∧ fsCalls out.ev = []) ∧
      (s.fd_table pid new_fd.toNat ≠ -1 →
        s.fd_table pid new_fd.toNat ≠ s.fd_table pid old_fd.toNat →
        ∀ rt, deref K s (s.fd_table pid new_fd.toNat) = some rt →
          out.st.of (s.fd_table pid old_fd.toNat).toNat =
            some { offset := rs.offset, v_ptr := rs.v_ptr, flag := rs.flag,
                   ref_counter := rs.ref_counter + 1 } ∧
          (∀ k, k ≠ (s.fd_table pid old_fd.toNat).toNat →
            k ≠ (s.fd_table pid new_fd.toNat).toNat → out.st.of k = s.of k) ∧
          (1 < rt.ref_counter →
            out.st.of (s.fd_table pid new_fd.toNat).toNat =
              some { offset := rt.offset, v_ptr := rt.v_ptr, flag := rt.flag,
                     ref_counter := rt.ref_counter - 1 } ∧
            fsCalls out.ev = []) ∧
          (rt.ref_counter = 1 →
            out.st.of (s.fd_table pid new_fd.toNat).toNat = none ∧
            fsCalls out.ev = [Event.vfs_close rt.v_ptr])) := by
  obtain ⟨hs0, hs1, hs2, hsS⟩ := deref_some hds
  have hidx : old_fd.toNat ≠ new_fd.toNat := by omega
  have hnlt : new_fd.toNat < K.OPEN_MAX := by omega
  have holt : old_fd.toNat < K.OPEN_MAX := by omega
  have hidx2 : ¬ (pid = pid ∧ old_fd.toNat = new_fd.toNat) := fun h => hidx h.2
  by_cases hnu : s.fd_table pid new_fd.toNat = -1
  · rw [sys_dup2_unbound retval ho0 ho1 hn0 hn1 hne hob hds hnu]
    refine ⟨_, rfl, rfl, rfl, setFd_other _ _ hidx2, setFd_same _ _ _ _,
      fun p i h => setFd_other _ _ h, fun _ => ⟨setOf_same _ _ _,
        fun k hk => setOf_other _ _ hk, rfl⟩,
      fun h => absurd hnu h, fun h => absurd hnu h, fun h => absurd hnu h⟩
  · obtain ⟨rt, hdt⟩ := hnew hnu
    obtain ⟨ht0, ht1, ht2, htT⟩ := deref_some hdt
    have hrt : rt.ref_counter = (refs K nproc s (s.fd_table pid new_fd.toNat).toNat : Int) :=
      hcount _ _ ht2 htT
    have hcellN : s.fd_table pid new_fd.toNat
        = ((s.fd_table pid new_fd.toNat).toNat : Int) := by omega
    have hcellO : s.fd_table pid old_fd.toNat
        = ((s.fd_table pid old_fd.toNat).toNat : Int) := by omega
    have hpos : 1 ≤ refs K nproc s (s.fd_table pid new_fd.toNat).toNat :=
      refs_pos K nproc s hp hnlt hcellN
    have hcl := sys_close_bound hn0 hn1 hnu hdt
    by_cases hsame : s.fd_table pid new_fd.toNat = s.fd_table pid old_fd.toNat
    · have hO' : s.fd_table pid old_fd.toNat
          = ((s.fd_table pid new_fd.toNat).toNat : Int) := by omega
      have h2 : 2 ≤ refs K nproc s (s.fd_table pid new_fd.toNat).toNat :=
        refs_two K nproc s hp holt hnlt hidx hO' hcellN
      have hgt : rt.ref_counter > 1 := by omega
      rw [if_pos hgt] at hcl
      have hrs : rt = rs := by
        rw [hsame, hsS] at htT
        exact (Option.some.inj htT).symm
      subst hrs
      have hdc : deref K
          { of := setOf s.of (s.fd_table pid new_fd.toNat).toNat
              (some { rt with ref_counter := rt.ref_counter + -1 }),
            fd_table := setFd s.fd_table pid new_fd.toNat (-1) }
          (s.fd_table pid old_fd.toNat)
          = some { rt with ref_counter := rt.ref_counter + -1 } := by
        rw [← hsame]
        exact deref_setOf_same K s.of _ _ ht0 ht1
      rw [sys_dup2_bound retval ho0 ho1 hn0 hn1 hne hob hnu hcl rfl hdc]
      have hback : setOf (setOf s.of (s.fd_table pid new_fd.toNat).toNat
            (some { rt with ref_counter := rt.ref_counter + -1 }))
          (s.fd_table pid old_fd.toNat).toNat
          (some { offset := rt.offset, v_ptr := rt.v_ptr, flag := rt.flag,
                  ref_counter := rt.ref_counter + -1 + 1 }) = s.of := by
        funext k
        unfold setOf
        rw [hsame]
        by_cases hk : k = (s.fd_table pid old_fd.toNat).toNat
        · subst hk
          simp only [if_true]
          rw [hsS]
          cases rt
          simp
        · simp [hk]
      refine ⟨_, rfl, rfl, rfl, ?_, ?_, ?_, fun h => absurd h hnu, fun _ => ?_,
        fun _ _ => ⟨hback, rfl⟩, fun _ h => absurd hsame h⟩
      · show setFd (setFd s.fd_table pid new_fd.toNat (-1)) pid new_fd.toNat _ pid
          old_fd.toNat = _
        rw [setFd_setFd]
        exact setFd_other _ _ hidx2
      · exact setFd_same _ _ _ _
      · intro p i h
        show setFd (setFd s.fd_table pid new_fd.toNat (-1)) pid new_fd.toNat _ p i = _
        rw [setFd_setFd]
        exact setFd_other _ _ h
      · refine ⟨_, _, hcl, rfl, ?_, setOf_same _ _ _, fun k hk => setOf_other _ _ hk, rfl⟩
        show setOf s.of _ _ _ = _
        rw [hsame]
        exact setOf_same _ _ _
    · have hST : (s.fd_table pid old_fd.toNat).toNat ≠ (s.fd_table pid new_fd.toNat).toNat := by
        omega
      have hfdO : setFd (setFd s.fd_table pid new_fd.toNat (-1)) pid new_fd.toNat
          (s.fd_table pid old_fd.toNat) pid old_fd.toNat = s.fd_table pid old_fd.toNat := by
        rw [setFd_setFd]
        exact setFd_other _ _ hidx2
      have hfdX : ∀ p i, ¬ (p = pid ∧ i = new_fd.toNat) →
          setFd (setFd s.fd_table pid new_fd.toNat (-1)) pid new_fd.toNat
            (s.fd_table pid old_fd.toNat) p i = s.fd_table p i := by
        intro p i h
        rw [setFd_setFd]
        exact setFd_other _ _ h
      by_cases hgt : rt.ref_counter > 1
      · rw [if_pos hgt] at hcl
        have hdc := (deref_setOf_other K s.of (setFd s.fd_table pid new_fd.toNat (-1))
          (some { rt with ref_counter := rt.ref_counter + -1 }) hs0 hs1 hST).trans hsS
        rw [sys_dup2_bound retval ho0 ho1 hn0 hn1 hne hob hnu hcl rfl hdc]
        refine ⟨_, rfl, rfl, rfl, hfdO, setFd_same _ _ _ _, hfdX, fun h => absurd h hnu,
          fun _ => ⟨_, _, hcl, rfl, ?_, setOf_same _ _ _, fun k hk => setOf_other _ _ hk, rfl⟩,
          fun _ h => absurd h hsame, fun _ _ rt2 hrt2 => ?_⟩
        · show setOf s.of _ _ _ = _
          rw [setOf_other _ _ hST]
          exact hsS
        · have hrt2e : rt2 = rt := by
            rw [hdt] at hrt2
            exact (Option.some.inj hrt2).symm
          subst hrt2e
          refine ⟨setOf_same _ _ _, fun k hk1 hk2 => ?_, fun _ => ⟨?_, rfl⟩,
            fun h => by omega⟩
          · show setOf (setOf s.of _ _) _ _ k = _
            rw [setOf_other _ _ hk1, setOf_other _ _ hk2]
          · show setOf (setOf s.of _ _) _ _ _ = _
            rw [setOf_other _ _ (Ne.symm hST), setOf_same]
            rfl
      · have h1 : rt.ref_counter = 1 := by omega
        rw [if_neg hgt, if_pos h1] at hcl
        have hdc := (deref_setOf_other K s.of (setFd s.fd_table pid new_fd.toNat (-1))
          none hs0 hs1 hST).trans hsS
        rw [sys_dup2_bound retval ho0 ho1 hn0 hn1 hne hob hnu hcl rfl hdc]
        refine ⟨_, rfl, rfl, rfl, hfdO, setFd_same _ _ _ _, hfdX, fun h => absurd h hnu,
          fun _ => ⟨_, _, hcl, rfl, ?_, setOf_same _ _ _, fun k hk => setOf_other _ _ hk, rfl⟩,
          fun _ h => absurd h hsame, fun _ _ rt2 hrt2 => ?_⟩
        · show setOf s.of _ _ _ = _
          rw [setOf_other _ _ hST]
          exact hsS
        · have hrt2e : rt2 = rt := by
            rw [hdt] at hrt2
            exact (Option.some.inj hrt2).symm
          subst hrt2e
          refine ⟨setOf_same _ _ _, fun k hk1 hk2 => ?_, fun h => by omega,
            fun _ => ⟨?_, rfl⟩⟩
          · show setOf (setOf s.of _ _) _ _ k = _
            rw [setOf_other _ _ hk1, setOf_other _ _ hk2]
          · show setOf (setOf s.of _ _) _ _ _ = _
            rw [setOf_other _ _ (Ne.symm hST), setOf_same]

/-- C5, at a concrete input: in `twoFiles`, `dup2(0, 1)` destroys the record of
descriptor 1 (one `vfs_close` on vnode 8) and makes descriptor 1 share the record of
descriptor 0, whose `ref_counter` becomes 2. -/
theorem sys_dup2_effect_witness :
    ∃ out, sys_dup2 tiny twoFiles 0 0 1 99 = some out ∧
      out.ret = 0 ∧ out.out = 1 ∧
      out.st.fd_table 0 0 = 2 ∧ out.st.fd_table 0 1 = 2 ∧
      out.st.of 2 = some ⟨10, 7, 2, 2⟩ ∧ out.st.of 1 = none ∧
      fsCalls out.ev = [Event.vfs_close 8] := by
  obtain ⟨out, h1, h2, h3, h4, h5, _, _, _, _, h10⟩ :=
    sys_dup2_effect tiny 1 twoFiles 0 0 1 99 ⟨10, 7, 2, 1⟩
      (by decide) (by decide) (by decide) (by decide) (by decide) (by decide) (by decide)
      (by decide) (fun _ => ⟨⟨0, 8, 0, 1⟩, by decide⟩)
      (by
        intro j r hj h
        have hj4 : j < 4 := hj
        interval_cases j
        · exact Option.noConfusion h
        · have hr : r = ⟨0, 8, 0, 1⟩ := (Option.some.inj h).symm
          subst hr
          decide
        · have hr : r = ⟨10, 7, 2, 1⟩ := (Option.some.inj h).symm
          subst hr
          decide
        · exact Option.noConfusion h)
  have h := h10 (by decide) (by decide) ⟨0, 8, 0, 1⟩ (by decide)
  exact ⟨out, h1, h2, h3, h4, h5, h.1, (h.2.2.2 rfl).1, (h.2.2.2 rfl).2⟩

/-! ## Preservation of the table invariants -/

theorem refs_eq_zero (K : KConst) (nproc : Nat) (s : KState) (j : Nat)
    (h : ∀ p f, p < nproc → f < K.OPEN_MAX → s.fd_table p f ≠ (j : Int)) :
    refs K nproc s j = 0 := by
  unfold refs
  rw [Finset.card_eq_zero, Finset.filter_eq_empty_iff]
  intro c hc
  simp only [Finset.mem_product, Finset.mem_range] at hc
  exact h c.1 c.2 hc.1 hc.2

/-- The Directory of `initState` is the one `init_of_table` builds. -/
theorem init_of_table_initState (K : KConst) :
    init_of_table K true true = some initState.of := by
  simp [init_of_table, initState]

theorem WF_initState (K : KConst) (nproc : Nat) : WF K nproc initState where
  bound := fun _ _ _ _ h => absurd rfl h
  count := fun _ _ _ h => Option.noConfusion h
  pos := fun _ _ _ h => Option.noConfusion h

/-- Binding an unbound descriptor cell to Directory cell `J` and storing there a
record that counts one reference more than before keeps the invariants. -/
theorem WF_bind {K : KConst} {nproc : Nat} {s : KState} (hwf : WF K nproc s)
    (pid fd J : Nat) (r' : open_file) (hp : pid < nproc) (hfd : fd < K.OPEN_MAX)
    (hu : s.fd_table pid fd = -1) (hJ : J < K.OPEN_MAX)
    (hr : r'.ref_counter = (refs K nproc s J : Int) + 1) :
    WF K nproc { of := setOf s.of J (some r'), fd_table := setFd s.fd_table pid fd (J : Int) } := by
  have hrefs : ∀ j, refs K nproc
      { of := setOf s.of J (some r'), fd_table := setFd s.fd_table pid fd (J : Int) } j
      = refs K nproc s j + (if j = J then 1 else 0) := by
    intro j
    have h := refs_setFd K nproc s (setOf s.of J (some r')) (J : Int) j hp hfd
    rw [hu] at h
    have h1 : ¬ ((-1 : Int) = (j : Int)) := by omega
    rw [if_neg h1] at h
    by_cases hj : j = J
    · subst hj
      simpa using h
    · have h2 : ¬ ((J : Int) = (j : Int)) := by omega
      rw [if_neg h2] at h
      rw [if_neg hj]
      exact h
  refine ⟨?_, ?_, ?_⟩
  · intro p f hp' hf hne
    by_cases hc : p = pid ∧ f = fd
    · obtain ⟨rfl, rfl⟩ := hc
      refine ⟨r', ?_⟩
      show deref K _ (setFd s.fd_table p f (J : Int) p f) = _
      rw [setFd_same, deref_of_nat hJ]
      exact setOf_same _ _ _
    · have hcell : setFd s.fd_table pid fd (J : Int) p f = s.fd_table p f :=
        setFd_other _ _ hc
      change setFd s.fd_table pid fd (J : Int) p f ≠ -1 at hne
      show ∃ r, deref K _ (setFd s.fd_table pid fd (J : Int) p f) = some r
      rw [hcell] at hne ⊢
      obtain ⟨r0, h0⟩ := hwf.bound p f hp' hf hne
      obtain ⟨a, b, _, d⟩ := deref_some h0
      by_cases hk : (s.fd_table p f).toNat = J
      · refine ⟨r', ?_⟩
        have := deref_setOf_same K s.of (setFd s.fd_table pid fd (J : Int)) (some r') a b
        rw [hk] at this
        exact this
      · exact ⟨r0, (deref_setOf_other K s.of _ _ a b hk).trans d⟩
  · intro j r hj h
    rw [hrefs]
    change setOf s.of J (some r') j = some r at h
    by_cases hjJ : j = J
    · subst hjJ
      rw [setOf_same] at h
      have : r' = r := Option.some.inj h
      subst this
      simp [hr]
    · rw [setOf_other _ _ hjJ] at h
      simp [hjJ, hwf.count j r hj h]
  · intro j r hj h
    change setOf s.of J (some r') j = some r at h
    by_cases hjJ : j = J
    · subst hjJ
      rw [setOf_same] at h
      have : r' = r := Option.some.inj h
      subst this
      omega
    · rw [setOf_other _ _ hjJ] at h
      exact hwf.pos j r hj h

/-- Unbinding a descriptor cell that holds `J` and storing in Directory cell `J`
either a record that counts one reference less, or nothing when that was the last
reference, keeps the invariants. -/
theorem WF_unbind {K : KConst} {nproc : Nat} {s : KState} (hwf : WF K nproc s)
    {pid fd J : Nat} (v : Option open_file) (hp : pid < nproc) (hfd : fd < K.OPEN_MAX)
    (hb : s.fd_table pid fd = (J : Int)) (hJ : J < K.OPEN_MAX)
    (hv : ∀ r', v = some r' →
      r'.ref_counter + 1 = (refs K nproc s J : Int) ∧ 1 ≤ r'.ref_counter)
    (hv0 : v = none → refs K nproc s J = 1) :
    WF K nproc { of := setOf s.of J v, fd_table := setFd s.fd_table pid fd (-1) } := by
  have hrefs : ∀ j, refs K nproc
      { of := setOf s.of J v, fd_table := setFd s.fd_table pid fd (-1) } j
        + (if j = J then 1 else 0) = refs K nproc s j := by
    intro j
    have h := refs_setFd K nproc s (setOf s.of J v) (-1 : Int) j hp hfd
    rw [hb] at h
    have h1 : ¬ ((-1 : Int) = (j : Int)) := by omega
    rw [if_neg h1] at h
    by_cases hj : j = J
    · subst hj
      simpa using h
    · have h2 : ¬ ((J : Int) = (j : Int)) := by omega
      rw [if_neg h2] at h
      rw [if_neg hj]
      exact h
  refine ⟨?_, ?_, ?_⟩
  · intro p f hp' hf hne
    by_cases hc : p = pid ∧ f = fd
    · obtain ⟨rfl, rfl⟩ := hc
      change setFd s.fd_table p f (-1) p f ≠ -1 at hne
      rw [setFd_same] at hne
      exact absurd rfl hne
    · have hcell : setFd s.fd_table pid fd (-1) p f = s.fd_table p f :=
        setFd_other _ _ hc
      change setFd s.fd_table pid fd (-1) p f ≠ -1 at hne
      show ∃ r, deref K _ (setFd s.fd_table pid fd (-1) p f) = some r
      rw [hcell] at hne ⊢
      obtain ⟨r0, h0⟩ := hwf.bound p f hp' hf hne
      obtain ⟨a, b, _, d⟩ := deref_some h0
      by_cases hk : (s.fd_table p f).toNat = J
      · cases hvv : v with
        | none =>
          exfalso
          have hz := hrefs J
          rw [if_pos rfl, hv0 hvv] at hz
          have hzero : refs K nproc
              { of := setOf s.of J v, fd_table := setFd s.fd_table pid fd (-1) } J = 0 := by
            omega
          have hcellJ : setFd s.fd_table pid fd (-1) p f = (J : Int) := by
            rw [hcell]; omega
          exact refs_zero K nproc _ hp' hf hzero hcellJ
        | some r1 =>
          refine ⟨r1, ?_⟩
          have := deref_setOf_same K s.of (setFd s.fd_table pid fd (-1)) (some r1) a b
          rw [hk] at this
          exact this
      · exact ⟨r0, (deref_setOf_other K s.of _ _ a b hk).trans d⟩
  · intro j r hj h
    have hr := hrefs j
    change setOf s.of J v j = some r at h
    by_cases hjJ : j = J
    · subst hjJ
      rw [setOf_same] at h
      rw [if_pos rfl] at hr
      have := (hv r h).1
      omega
    · rw [setOf_other _ _ hjJ] at h
      rw [if_neg hjJ] at hr
      have := hwf.count j r hj h
      omega
  · intro j r hj h
    change setOf s.of J v j = some r at h
    by_cases hjJ : j = J
    · subst hjJ
      rw [setOf_same] at h
      exact (hv r h).2
    · rw [setOf_other _ _ hjJ] at h
      exact hwf.pos j r hj h

/-- Replacing the record of a Directory cell by one with the same `ref_counter`
keeps the invariants. -/
theorem WF_touch {K : KConst} {nproc : Nat} {s : KState} (hwf : WF K nproc s)
    {J : Nat} {r r' : open_file} (hJ : s.of J = some r)
    (hr : r'.ref_counter = r.ref_counter) :
    WF K nproc { of := setOf s.of J (some r'), fd_table := s.fd_table } := by
  refine ⟨?_, ?_, ?_⟩
  · intro p f hp' hf hne
    obtain ⟨r0, h0⟩ := hwf.bound p f hp' hf hne
    obtain ⟨a, b, _, d⟩ := deref_some h0
    by_cases hk : (s.fd_table p f).toNat = J
    · refine ⟨r', ?_⟩
      have := deref_setOf_same K s.of s.fd_table (some r') a b
      rw [hk] at this
      exact this
    · exact ⟨r0, (deref_setOf_other K s.of _ _ a b hk).trans d⟩
  · intro j r1 hj h
    rw [refs_of_irrel]
    change setOf s.of J (some r') j = some r1 at h
    by_cases hjJ : j = J
    · subst hjJ
      rw [setOf_same] at h
      have : r' = r1 := Option.some.inj h
      subst this
      rw [hr]
      exact hwf.count j r hj hJ
    · rw [setOf_other _ _ hjJ] at h
      exact hwf.count j r1 hj h
  · intro j r1 hj h
    change setOf s.of J (some r') j = some r1 at h
    by_cases hjJ : j = J
    · subst hjJ
      rw [setOf_same] at h
      have : r' = r1 := Option.some.inj h
      subst this
      rw [hr]
      exact hwf.pos j r hj hJ
    · rw [setOf_other _ _ hjJ] at h
      exact hwf.pos j r1 hj h

theorem any_open_WF {K : KConst} {nproc : Nat} {s : KState} (hwf : WF K nproc s)
    {pid : Nat} (hp : pid < nproc) (filename : String)
    (flags mode retval vfs_result : Int) (new_vnode : Nat) (kmalloc_ok lock_ok : Bool) :
    WF K nproc (any_open K s pid filename flags mode retval vfs_result new_vnode
      kmalloc_ok lock_ok).st := by
  rcases hfd : scanFrom (fun i => s.fd_table pid i == -1) K.OPEN_MAX 0 with _ | fd
  · simpa [any_open, hfd] using hwf
  by_cases hm : Int.land flags K.O_ACCMODE = K.O_RDONLY ∨
      Int.land flags K.O_ACCMODE = K.O_WRONLY ∨ Int.land flags K.O_ACCMODE = K.O_RDWR
  swap
  · simpa [any_open, hfd, hm] using hwf
  by_cases hv : vfs_result = 0
  swap
  · simpa [any_open, hfd, hm, hv] using hwf
  rcases hof : scanFrom (fun j => (s.of j).isNone) K.OPEN_MAX 0 with _ | of_n
  · simpa [any_open, hfd, hm, hv, hof] using hwf
  cases kmalloc_ok
  · simpa [any_open, hfd, hm, hv, hof] using hwf
  cases lock_ok
  · simpa [any_open, hfd, hm, hv, hof] using hwf
  obtain ⟨_, f2, f3, _⟩ := scanFrom_some hfd
  obtain ⟨_, g2, g3, _⟩ := scanFrom_some hof
  have hfree : s.of of_n = none := by simpa using g3
  have hunb : s.fd_table pid fd = -1 := by simpa using f3
  have hzero : refs K nproc s of_n = 0 := by
    apply refs_eq_zero
    intro p f hp' hf hcell
    have hne : s.fd_table p f ≠ -1 := by omega
    obtain ⟨r0, h0⟩ := hwf.bound p f hp' hf hne
    rw [hcell, deref_of_nat (by omega), hfree] at h0
    exact Option.noConfusion h0
  have hb := WF_bind hwf pid fd of_n
    { offset := 0, v_ptr := new_vnode, flag := flags, ref_counter := 1 }
    hp (by omega) hunb (by omega) (by simp [hzero])
  simpa [any_open, hfd, hm, hv, hof] using hb

theorem sys_close_WF {K : KConst} {nproc : Nat} {s : KState} (hwf : WF K nproc s)
    {pid : Nat} (hp : pid < nproc) (fd : Int) :
    ∃ c, sys_close K s pid fd = some c ∧ WF K nproc c.st ∧
      (0 ≤ fd → fd < K.OPEN_MAX → s.fd_table pid fd.toNat ≠ -1 →
        c.ret = 0 ∧ c.st.fd_table = setFd s.fd_table pid fd.toNat (-1)) := by
  by_cases hr : fd < 0 ∨ fd ≥ K.OPEN_MAX
  · refine ⟨⟨K.EBADF, (), s, []⟩, by simp [sys_close, hr], hwf, fun h0 h1 _ => ?_⟩
    omega
  by_cases hu : s.fd_table pid fd.toNat = -1
  · exact ⟨⟨K.EBADF, (), s, []⟩, by simp [sys_close, hr, hu], hwf, fun _ _ h => absurd hu h⟩
  have h0 : 0 ≤ fd := by omega
  have h1 : fd < K.OPEN_MAX := by omega
  have hfd : fd.toNat < K.OPEN_MAX := by omega
  obtain ⟨r, hd⟩ := hwf.bound pid fd.toNat hp hfd hu
  obtain ⟨a, b, hJ, hS⟩ := deref_some hd
  have hcell : s.fd_table pid fd.toNat = ((s.fd_table pid fd.toNat).toNat : Int) := by omega
  have hcnt := hwf.count _ r hJ hS
  have hpos := hwf.pos _ r hJ hS
  rw [sys_close_bound h0 h1 hu hd]
  by_cases hgt : r.ref_counter > 1
  · rw [if_pos hgt]
    refine ⟨_, rfl, ?_, fun _ _ _ => ⟨rfl, rfl⟩⟩
    refine WF_unbind hwf _ hp hfd hcell hJ ?_ ?_
    · intro r' hr'
      have : r' = { r with ref_counter := r.ref_counter + -1 } := (Option.some.inj hr').symm
      subst this
      constructor
      · show r.ref_counter + -1 + 1 = _
        omega
      · show 1 ≤ r.ref_counter + -1
        omega
    · intro h
      exact Option.noConfusion h
  · have h1' : r.ref_counter = 1 := by omega
    rw [if_neg hgt, if_pos h1']
    refine ⟨_, rfl, ?_, fun _ _ _ => ⟨rfl, rfl⟩⟩
    refine WF_unbind hwf _ hp hfd hcell hJ ?_ ?_
    · intro r' hr'
      exact Option.noConfusion hr'
    · intro _
      omega

theorem sys_read_WF {K : KConst} {nproc : Nat} {s : KState} (hwf : WF K nproc s)
    {pid : Nat} (hp : pid < nproc) (fd buflen retval result uio_offset uio_resid : Int) :
    ∃ out, sys_read K s pid fd buflen retval result uio_offset uio_resid = some out ∧
      WF K nproc out.st := by
  by_cases hr : fd < 0 ∨ fd ≥ K.OPEN_MAX
  · exact ⟨⟨K.EBADF, retval, s, []⟩, by simp [sys_read, hr], hwf⟩
  by_cases hu : s.fd_table pid fd.toNat = -1
  · exact ⟨⟨K.EBADF, retval, s, []⟩, by simp [sys_read, hr, hu], hwf⟩
  obtain ⟨r, hd⟩ := hwf.bound pid fd.toNat hp (by omega) hu
  obtain ⟨_, _, _, hS⟩ := deref_some hd
  rw [sys_read_bound (by omega) (by omega) hu hd]
  split_ifs
  · exact ⟨_, rfl, hwf⟩
  · exact ⟨_, rfl, hwf⟩
  · exact ⟨_, rfl, WF_touch hwf hS rfl⟩

theorem sys_write_WF {K : KConst} {nproc : Nat} {s : KState} (hwf : WF K nproc s)
    {pid : Nat} (hp : pid < nproc) (fd nbytes retval result uio_offset uio_resid : Int) :
    ∃ out, sys_write K s pid fd nbytes retval result uio_offset uio_resid = some out ∧
      WF K nproc out.st := by
  by_cases hr : fd < 0 ∨ fd ≥ K.OPEN_MAX
  · exact ⟨⟨K.EBADF, retval, s, []⟩, by simp [sys_write, hr], hwf⟩
  by_cases hu : s.fd_table pid fd.toNat = -1
  · exact ⟨⟨K.EBADF, retval, s, []⟩, by simp [sys_write, hr, hu], hwf⟩
  obtain ⟨r, hd⟩ := hwf.bound pid fd.toNat hp (by omega) hu
  obtain ⟨_, _, _, hS⟩ := deref_some hd
  rw [sys_write_bound (by omega) (by omega) hu hd]
  split_ifs
  · exact ⟨_, rfl, hwf⟩
  · exact ⟨_, rfl, hwf⟩
  · exact ⟨_, rfl, WF_touch hwf hS rfl⟩

theorem sys_lseek_WF {K : KConst} {nproc : Nat} {s : KState} (hwf : WF K nproc s)
    {pid : Nat} (hp : pid < nproc) (fd pos whence retval64 : Int) (seekable : Bool)
    (stat_result st_size : Int) :
    ∃ out, sys_lseek K s pid fd pos whence retval64 seekable stat_result st_size = some out ∧
      WF K nproc out.st := by
  by_cases hr : fd < 0 ∨ fd ≥ K.OPEN_MAX
  · exact ⟨⟨K.EBADF, retval64, s, []⟩, by simp [sys_lseek, hr], hwf⟩
  by_cases hu : s.fd_table pid fd.toNat = -1
  · exact ⟨⟨K.EBADF, retval64, s, []⟩, by simp [sys_lseek, hr, hu], hwf⟩
  obtain ⟨r, hd⟩ := hwf.bound pid fd.toNat hp (by omega) hu
  obtain ⟨_, _, _, hS⟩ := deref_some hd
  have touch : ∀ x : Int, WF K nproc
      { of := setOf s.of (s.fd_table pid fd.toNat).toNat (some { r with offset := x }),
        fd_table := s.fd_table } := fun x => WF_touch hwf hS rfl
  simp only [sys_lseek, hr, hu, if_false, hd]
  split_ifs
  all_goals first
    | exact ⟨_, rfl, hwf⟩
    | exact ⟨_, rfl, touch _⟩

theorem sys_dup2_WF {K : KConst} {nproc : Nat} {s : KState} (hwf : WF K nproc s)
    {pid : Nat} (hp : pid < nproc) (old_fd new_fd retval : Int) :
    ∃ out, sys_dup2 K s pid old_fd new_fd retval = some out ∧ WF K nproc out.st := by
  by_cases hr1 : old_fd < 0 ∨ old_fd ≥ K.OPEN_MAX
  · exact ⟨⟨K.EBADF, retval, s, []⟩, by simp [sys_dup2, hr1], hwf⟩
  by_cases hr2 : new_fd < 0 ∨ new_fd ≥ K.OPEN_MAX
  · exact ⟨⟨K.EBADF, retval, s, []⟩, by simp [sys_dup2, hr1, hr2], hwf⟩
  by_cases hu : s.fd_table pid old_fd.toNat = -1
  · exact ⟨⟨K.EBADF, retval, s, []⟩, by simp [sys_dup2, hr1, hr2, hu], hwf⟩
  by_cases heq : old_fd = new_fd
  · subst heq
    exact ⟨⟨0, retval, s, []⟩, by simp [sys_dup2, hr1, hu], hwf⟩
  have ho0 : 0 ≤ old_fd := by omega
  have ho1 : old_fd < K.OPEN_MAX := by omega
  have hn0 : 0 ≤ new_fd := by omega
  have hn1 : new_fd < K.OPEN_MAX := by omega
  have holt : old_fd.toNat < K.OPEN_MAX := by omega
  have hnlt : new_fd.toNat < K.OPEN_MAX := by omega
  have hidx2 : ¬ (pid = pid ∧ old_fd.toNat = new_fd.toNat) := fun h => by omega
  obtain ⟨rs, hds⟩ := hwf.bound pid old_fd.toNat hp holt hu
  obtain ⟨a, b, hJ, hS⟩ := deref_some hds
  have hcellO : s.fd_table pid old_fd.toNat
      = ((s.fd_table pid old_fd.toNat).toNat : Int) := by omega
  by_cases hnu : s.fd_table pid new_fd.toNat = -1
  · rw [sys_dup2_unbound retval ho0 ho1 hn0 hn1 heq hu hds hnu]
    refine ⟨_, rfl, ?_⟩
    have hb := WF_bind hwf pid new_fd.toNat (s.fd_table pid old_fd.toNat).toNat
      { rs with ref_counter := rs.ref_counter + 1 } hp hnlt hnu hJ
      (by show rs.ref_counter + 1 = _; rw [hwf.count _ rs hJ hS])
    rw [← hcellO] at hb
    exact hb
  · obtain ⟨c, hc, hwfc, hprops⟩ := sys_close_WF hwf hp new_fd
    obtain ⟨hc0, hcfd⟩ := hprops hn0 hn1 hnu
    have hco : c.st.fd_table pid old_fd.toNat = s.fd_table pid old_fd.toNat := by
      rw [hcfd]
      exact setFd_other _ _ hidx2
    have hcn : c.st.fd_table pid new_fd.toNat = -1 := by
      rw [hcfd]
      exact setFd_same _ _ _ _
    obtain ⟨rc, hdc⟩ := hwfc.bound pid old_fd.toNat hp holt (by rw [hco]; exact hu)
    rw [hco] at hdc
    obtain ⟨_, _, _, hSc⟩ := deref_some hdc
    rw [sys_dup2_bound retval ho0 ho1 hn0 hn1 heq hu hnu hc hc0 hdc]
    refine ⟨_, rfl, ?_⟩
    have hb := WF_bind hwfc pid new_fd.toNat (s.fd_table pid old_fd.toNat).toNat
      { rc with ref_counter := rc.ref_counter + 1 } hp hnlt hcn hJ
      (by show rc.ref_counter + 1 = _; rw [hwfc.count _ rc hJ hSc])
    rw [← hcellO] at hb
    exact hb

/-- One call by a process below `nproc` has a defined result and keeps the
invariants. -/
theorem exec_WF {K : KConst} {nproc : Nat} {s : KState} (hwf : WF K nproc s)
    (c : Call) (hp : c.pid < nproc) :
    ∃ s', exec K s c = some s' ∧ WF K nproc s' := by
  cases c with
  | any_open pid filename flags mode retval vfs_result new_vnode kmalloc_ok lock_ok =>
    exact ⟨_, rfl, any_open_WF hwf hp filename flags mode retval vfs_result new_vnode
      kmalloc_ok lock_ok⟩
  | sys_open pid filename flags mode retval copy_result new_filename vfs_result new_vnode
      kmalloc_ok lock_ok =>
    exact ⟨_, rfl, any_open_WF hwf hp new_filename flags mode retval vfs_result new_vnode
      kmalloc_ok lock_ok⟩
  | sys_close pid fd =>
    have hp' : pid < nproc := hp
    obtain ⟨o, ho, hw, _⟩ := sys_close_WF hwf hp' fd
    exact ⟨o.st, by simp [exec, ho], hw⟩
  | sys_read pid fd buflen retval result uio_offset uio_resid =>
    have hp' : pid < nproc := hp
    obtain ⟨o, ho, hw⟩ := sys_read_WF hwf hp' fd buflen retval result uio_offset uio_resid
    exact ⟨o.st, by simp [exec, ho], hw⟩
  | sys_write pid fd nbytes retval result uio_offset uio_resid =>
    have hp' : pid < nproc := hp
    obtain ⟨o, ho, hw⟩ := sys_write_WF hwf hp' fd nbytes retval result uio_offset uio_resid
    exact ⟨o.st, by simp [exec, ho], hw⟩
  | sys_lseek pid fd pos whence retval64 seekable stat_result st_size =>
    have hp' : pid < nproc := hp
    obtain ⟨o, ho, hw⟩ :=
      sys_lseek_WF hwf hp' fd pos whence retval64 seekable stat_result st_size
    exact ⟨o.st, by simp [exec, ho], hw⟩
  | sys_dup2 pid old_fd new_fd retval =>
    have hp' : pid < nproc := hp
    obtain ⟨o, ho, hw⟩ := sys_dup2_WF hwf hp' old_fd new_fd retval
    exact ⟨o.st, by simp [exec, ho], hw⟩

/-- A sequence of calls by processes below `nproc` has a defined result and keeps
the invariants. -/
theorem run_WF {K : KConst} {nproc : Nat} (calls : List Call) :
    ∀ s, WF K nproc s → (∀ c ∈ calls, c.pid < nproc) →
      ∃ s', run K calls s = some s' ∧ WF K nproc s' := by
  induction calls with
  | nil => intro s hwf _; exact ⟨s, rfl, hwf⟩
  | cons c cs ih =>
    intro s hwf hpid
    obtain ⟨s1, h1, hwf1⟩ := exec_WF hwf c (hpid c (List.mem_cons_self _ _))
    obtain ⟨s2, h2, hwf2⟩ := ih s1 hwf1 (fun d hd => hpid d (List.mem_cons_of_mem _ hd))
    exact ⟨s2, by simp [run, h1, h2], hwf2⟩

theorem pid_bound (calls : List Call) (n0 : Nat) :
    ∃ n, n0 ≤ n ∧ ∀ c ∈ calls, c.pid < n := by
  induction calls with
  | nil => exact ⟨n0, le_refl _, fun c hc => absurd hc (List.not_mem_nil c)⟩
  | cons c cs ih =>
    obtain ⟨n, hn0, hn⟩ := ih
    refine ⟨max n (c.pid + 1), le_trans hn0 (le_max_left _ _), fun d hd => ?_⟩
    rcases List.mem_cons.mp hd with rfl | hd'
    · exact lt_of_lt_of_le (Nat.lt_succ_self _) (le_max_right _ _)
    · exact lt_of_lt_of_le (hn d hd') (le_max_left _ _)

/-! ## C1 and C2: the invariants in every reachable state -/

/-- C1: starting from the state built by `init_of_table` with every descriptor table
all-unbound, after any finite sequence of open, close, read, write, lseek and dup2
calls executed one at a time by processes `0 .. nproc - 1`, the `ref_counter` of the
record in every non-empty Directory cell equals the number of descriptor cells, over
all those processes, that hold the cell's index, and is at least 1. -/
theorem ref_counter_counts_descriptors (K : KConst) (nproc : Nat) (calls : List Call)
    (s : KState) (hpid : ∀ c ∈ calls, c.pid < nproc)
    (hrun : run K calls initState = some s) :
    ∀ j r, j < K.OPEN_MAX → s.of j = some r →
      r.ref_counter = (refs K nproc s j : Int) ∧ 1 ≤ r.ref_counter := by
  obtain ⟨s', hs', hwf⟩ := run_WF calls initState (WF_initState K nproc) hpid
  rw [hrun] at hs'
  have : s = s' := Option.some.inj hs'
  subst this
  exact fun j r hj h => ⟨hwf.count j r hj h, hwf.pos j r hj h⟩

/-- C1, at a concrete input: process 0 opens a file, duplicates descriptor 0 onto
descriptor 3 and closes descriptor 0; process 1 opens a file. -/
theorem ref_counter_counts_descriptors_witness :
    ∃ s, run tiny [Call.any_open 0 "/f" 2 0 99 0 7 true true, Call.sys_dup2 0 0 3 0,
        Call.sys_close 0 0, Call.any_open 1 "/g" 0 0 99 0 8 true true] initState = some s ∧
      ∀ j r, j < tiny.OPEN_MAX → s.of j = some r →
        r.ref_counter = (refs tiny 2 s j : Int) ∧ 1 ≤ r.ref_counter :=
  ⟨_, rfl, ref_counter_counts_descriptors tiny 2
    [Call.any_open 0 "/f" 2 0 99 0 7 true true, Call.sys_dup2 0 0 3 0,
      Call.sys_close 0 0, Call.any_open 1 "/g" 0 0 99 0 8 true true] _
    (by decide) rfl⟩

/-- C2: every finite sequence of open, close, read, write, lseek and dup2 calls from
the initial state has a defined result, and in the state it reaches every bound
descriptor cell holds an index in `[0, OPEN_MAX)` of a non-empty Directory cell, so
that the read `of_table.of[of_n]` for a bound descriptor in range finds a record. -/
theorem bound_descriptor_has_record (K : KConst) (calls : List Call) :
    ∃ s, run K calls initState = some s ∧
      ∀ p fd, fd < K.OPEN_MAX → s.fd_table p fd ≠ -1 →
        0 ≤ s.fd_table p fd ∧ s.fd_table p fd < K.OPEN_MAX ∧
        ∃ r, s.of (s.fd_table p fd).toNat = some r ∧
          deref K s (s.fd_table p fd) = some r := by
  obtain ⟨n, _, hn⟩ := pid_bound calls 0
  obtain ⟨s, hs, _⟩ := run_WF calls initState (WF_initState K n) hn
  refine ⟨s, hs, fun p fd hfd hne => ?_⟩
  obtain ⟨m, hm0, hm⟩ := pid_bound calls (p + 1)
  obtain ⟨s', hs', hwf⟩ := run_WF calls initState (WF_initState K m) hm
  rw [hs] at hs'
  have : s = s' := Option.some.inj hs'
  subst this
  obtain ⟨r, hr⟩ := hwf.bound p fd (by omega) hfd hne
  obtain ⟨a, b, _, d⟩ := deref_some hr
  exact ⟨a, b, r, d, hr⟩

/-! ## C11, C12, C13 and C20: `sys_lseek` on a bound descriptor -/

/-- The ways `sys_lseek` ends on a descriptor in range whose cell is bound to a
record. -/
theorem sys_lseek_bound {K : KConst} {s : KState} {pid : Nat} {fd : Int} {r : open_file}
    (h0 : 0 ≤ fd) (h1 : fd < K.OPEN_MAX) (hb : s.fd_table pid fd.toNat ≠ -1)
    (hd : deref K s (s.fd_table pid fd.toNat) = some r)
    (pos whence retval64 : Int) (seekable : Bool) (stat_result st_size : Int) :
    sys_lseek K s pid fd pos whence retval64 seekable stat_result st_size =
      if ¬ seekable then
        some ⟨K.ESPIPE, retval64, s,
          [Event.lock_acquire (LockId.of_lock (s.fd_table pid fd.toNat).toNat),
           Event.VOP_ISSEEKABLE r.v_ptr,
           Event.lock_release (LockId.of_lock (s.fd_table pid fd.toNat).toNat)]⟩
      else if stat_result ≠ 0 then
        some ⟨stat_result, retval64, s,
          [Event.lock_acquire (LockId.of_lock (s.fd_table pid fd.toNat).toNat),
           Event.VOP_ISSEEKABLE r.v_ptr, Event.VOP_STAT r.v_ptr,
           Event.lock_release (LockId.of_lock (s.fd_table pid fd.toNat).toNat)]⟩
      else if whence = K.SEEK_SET then
        if pos < 0 then
          some ⟨K.EINVAL, retval64, s,
            [Event.lock_acquire (LockId.of_lock (s.fd_table pid fd.toNat).toNat),
             Event.VOP_ISSEEKABLE r.v_ptr, Event.VOP_STAT r.v_ptr,
             Event.lock_release (LockId.of_lock (s.fd_table pid fd.toNat).toNat)]⟩
        else
          some ⟨0, pos,
            { of := setOf s.of (s.fd_table pid fd.toNat).toNat
                (some { r with offset := pos }),
              fd_table := s.fd_table },
            [Event.lock_acquire (LockId.of_lock (s.fd_table pid fd.toNat).toNat),
             Event.VOP_ISSEEKABLE r.v_ptr, Event.VOP_STAT r.v_ptr,
             Event.lock_release (LockId.of_lock (s.fd_table pid fd.toNat).toNat)]⟩
      else if whence = K.SEEK_CUR then
        if toInt64 (r.offset + pos) < 0 then
          some ⟨K.EINVAL, retval64, s,
            [Event.lock_acquire (LockId.of_lock (s.fd_table pid fd.toNat).toNat),
             Event.VOP_ISSEEKABLE r.v_ptr, Event.VOP_STAT r.v_ptr,
             Event.lock_release (LockId.of_lock (s.fd_table pid fd.toNat).toNat)]⟩
        else
          some ⟨0, toInt64 (r.offset + pos),
            { of := setOf s.of (s.fd_table pid fd.toNat).toNat
                (some { r with offset := toInt64 (r.offset + pos) }),
              fd_table := s.fd_table },
            [Event.lock_acquire (LockId.of_lock (s.fd_table pid fd.toNat).toNat),
             Event.VOP_ISSEEKABLE r.v_ptr, Event.VOP_STAT r.v_ptr,
             Event.lock_release (LockId.of_lock (s.fd_table pid fd.toNat).toNat)]⟩
      else if whence = K.SEEK_END then
        if toInt64 (st_size + pos) < 0 then
          some ⟨K.EINVAL, retval64, s,
            [Event.lock_acquire (LockId.of_lock (s.fd_table pid fd.toNat).toNat),
             Event.VOP_ISSEEKABLE r.v_ptr, Event.VOP_STAT r.v_ptr,
             Event.lock_release (LockId.of_lock (s.fd_table pid fd.toNat).toNat)]⟩
        else
          some ⟨0, toInt64 (st_size + pos),
            { of := setOf s.of (s.fd_table pid fd.toNat).toNat
                (some { r with offset := toInt64 (st_size + pos) }),
              fd_table := s.fd_table },
            [Event.lock_acquire (LockId.of_lock (s.fd_table pid fd.toNat).toNat),
             Event.VOP_ISSEEKABLE r.v_ptr, Event.VOP_STAT r.v_ptr,
             Event.lock_release (LockId.of_lock (s.fd_table pid fd.toNat).toNat)]⟩
      else
        some ⟨K.EINVAL, retval64, s,
          [Event.lock_acquire (LockId.of_lock (s.fd_table pid fd.toNat).toNat),
           Event.VOP_ISSEEKABLE r.v_ptr, Event.VOP_STAT r.v_ptr,
           Event.lock_release (LockId.of_lock (s.fd_table pid fd.toNat).toNat)]⟩ := by
  have hr : ¬ (fd < 0 ∨ fd ≥ K.OPEN_MAX) := by omega
  simp only [sys_lseek, hr, if_false, hb, hd]

theorem toInt64_of_range {x : Int} (h0 : -9223372036854775808 ≤ x)
    (h1 : x ≤ 9223372036854775807) : toInt64 x = x := by
  unfold toInt64
  omega

/-- A sum of two `off_t` values that exceeds `2^63 - 1` wraps around to a negative
`off_t`. -/
theorem toInt64_overflow {x : Int} (h0 : 9223372036854775807 < x)
    (h1 : x ≤ 18446744073709551614) : toInt64 x < 0 := by
  unfold toInt64
  omega

/-- C12: on a bound descriptor whose vnode answers that it is not seekable,
`sys_lseek` returns `ESPIPE` for every `pos` and every `whence`, leaves the state
(hence the record's offset) and `*retval64` as they were, and makes no call to
`VOP_STAT`: its only call into the filesystem layer is `VOP_ISSEEKABLE`. -/
theorem sys_lseek_not_seekable (K : KConst) (s : KState) (pid : Nat) (fd : Int)
    (r : open_file)
    (h0 : 0 ≤ fd) (h1 : fd < K.OPEN_MAX) (hb : s.fd_table pid fd.toNat ≠ -1)
    (hd : deref K s (s.fd_table pid fd.toNat) = some r)
    (pos whence retval64 stat_result st_size : Int) :
    ∃ out, sys_lseek K s pid fd pos whence retval64 false stat_result st_size = some out ∧
      out.ret = K.ESPIPE ∧ out.st = s ∧ out.out = retval64 ∧
      fsCalls out.ev = [Event.VOP_ISSEEKABLE r.v_ptr] ∧
      ∀ vn, Event.VOP_STAT vn ∉ out.ev := by
  rw [sys_lseek_bound h0 h1 hb hd]
  refine ⟨_, rfl, rfl, rfl, rfl, rfl, fun vn => ?_⟩
  simp

/-- C12, at a concrete input: in `twoFiles`, descriptor 0 of process 0 sits on a
vnode that is not seekable; a seek to position 3 from the start is refused. -/
theorem sys_lseek_not_seekable_witness :
    ∃ out, sys_lseek os161 twoFiles 0 0 3 0 99 false 0 100 = some out ∧
      out.ret = os161.ESPIPE ∧ out.st = twoFiles ∧ out.out = 99 ∧
      fsCalls out.ev = [Event.VOP_ISSEEKABLE 7] ∧
      ∀ vn, Event.VOP_STAT vn ∉ out.ev :=
  sys_lseek_not_seekable os161 twoFiles 0 0 ⟨10, 7, 2, 1⟩
    (by decide) (by decide) (by decide) (by decide) 3 0 99 0 100

/-- C11, as stated, fails: in `twoFiles`, descriptor 0 of process 0 sits at offset 10
on a seekable vnode.  A `SEEK_SET` to position 0 returns the error 32 that `VOP_STAT`
returned, although the candidate 0 is not negative; a `SEEK_CUR` by `2^63 - 1`, whose
candidate `2^63 + 9` is not negative, returns `EINVAL`.  The offset stays 10. -/
theorem sys_lseek_nonneg_candidate_refused :
    (sys_lseek os161 twoFiles 0 0 0 os161.SEEK_SET 99 true 32 100).map
        (fun out => (out.ret, out.out, out.st.of 2))
      = some (32, 99, some ⟨10, 7, 2, 1⟩) ∧
    (sys_lseek os161 twoFiles 0 0 9223372036854775807 os161.SEEK_CUR 99 true 0 100).map
        (fun out => (out.ret, out.out, out.st.of 2))
      = some (os161.EINVAL, 99, some ⟨10, 7, 2, 1⟩) ∧
    (0 : Int) ≤ 10 + 9223372036854775807 := by
  decide

/-- C11, amended: on a bound descriptor whose vnode answers that it is seekable and
whose `VOP_STAT` succeeds, for `whence` one of `SEEK_SET`, `SEEK_CUR`, `SEEK_END` and
every `pos` whose candidate position (`pos`, offset + `pos`, size + `pos`) is at
least 0 and at most `2^63 - 1`, `sys_lseek` returns 0, sets the record's offset to
the candidate and stores the candidate in `*retval64`; the record's other fields,
the other Directory cells and the descriptor tables are unchanged. -/
theorem sys_lseek_success (K : KConst) (s : KState) (pid : Nat) (fd : Int) (r : open_file)
    (h0 : 0 ≤ fd) (h1 : fd < K.OPEN_MAX) (hb : s.fd_table pid fd.toNat ≠ -1)
    (hd : deref K s (s.fd_table pid fd.toNat) = some r)
    (hseek : K.SEEK_SET ≠ K.SEEK_CUR ∧ K.SEEK_SET ≠ K.SEEK_END ∧ K.SEEK_CUR ≠ K.SEEK_END)
    (pos whence retval64 st_size cand : Int)
    (hcand : (whence = K.SEEK_SET ∧ cand = pos) ∨
      (whence = K.SEEK_CUR ∧ cand = r.offset + pos) ∨
      (whence = K.SEEK_END ∧ cand = st_size + pos))
    (hc0 : 0 ≤ cand) (hc1 : cand ≤ 9223372036854775807) :
    ∃ out, sys_lseek K s pid fd pos whence retval64 true 0 st_size = some out ∧
      out.ret = 0 ∧ out.out = cand ∧
      out.st.of (s.fd_table pid fd.toNat).toNat =
        some { offset := cand, v_ptr := r.v_ptr, flag := r.flag,
               ref_counter := r.ref_counter } ∧
      (∀ k, k ≠ (s.fd_table pid fd.toNat).toNat → out.st.of k = s.of k) ∧
      out.st.fd_table = s.fd_table := by
  obtain ⟨hsc, hse, hce⟩ := hseek
  have hw : toInt64 cand = cand := toInt64_of_range (by omega) hc1
  rw [sys_lseek_bound h0 h1 hb hd]
  simp only [Bool.not_eq_true, not_true_eq_false, if_false, ne_eq]
  rcases hcand with ⟨hwh, hc⟩ | ⟨hwh, hc⟩ | ⟨hwh, hc⟩
  · subst hwh
    subst hc
    rw [if_pos rfl, if_neg (by omega)]
    exact ⟨_, rfl, rfl, rfl, setOf_same _ _ _, fun k hk => setOf_other _ _ hk, rfl⟩
  · subst hwh
    rw [if_neg (Ne.symm hsc), if_pos rfl, ← hc, hw, if_neg (by omega)]
    exact ⟨_, rfl, rfl, rfl, setOf_same _ _ _, fun k hk => setOf_other _ _ hk, rfl⟩
  · subst hwh
    rw [if_neg (Ne.symm hse), if_neg (Ne.symm hce), if_pos rfl, ← hc, hw, if_neg (by omega)]
    exact ⟨_, rfl, rfl, rfl, setOf_same _ _ _, fun k hk => setOf_other _ _ hk, rfl⟩

/-- C11, amended, at a concrete input: in `twoFiles`, descriptor 0 of process 0 sits
at offset 10; a `SEEK_END` by -30 on an object of size 100 moves it to 70. -/
theorem sys_lseek_success_witness :
    ∃ out, sys_lseek os161 twoFiles 0 0 (-30) os161.SEEK_END 99 true 0 100 = some out ∧
      out.ret = 0 ∧ out.out = 70 ∧ out.st.of 2 = some ⟨70, 7, 2, 1⟩ := by
  obtain ⟨out, h1, h2, h3, h4, _⟩ := sys_lseek_success os161 twoFiles 0 0 ⟨10, 7, 2, 1⟩
    (by decide) (by decide) (by decide) (by decide) (by decide)
    (-30) os161.SEEK_END 99 100 70 (Or.inr (Or.inr ⟨rfl, by decide⟩))
    (by decide) (by decide)
  exact ⟨out, h1, h2, h3, h4⟩

/-- C13: on a bound descriptor whose vnode is seekable, whose `VOP_STAT` succeeds with
a size that is not negative, and whose record offset is not negative: if `whence` is
none of `SEEK_SET`, `SEEK_CUR`, `SEEK_END`, or if the candidate position (`pos`,
offset + `pos`, size + `pos`) is negative, `sys_lseek` returns `EINVAL` and leaves
the state (hence the record's offset) and `*retval64` as they were.  `pos` is an
`off_t`, so it is at least `-2^63`. -/
theorem sys_lseek_invalid (K : KConst) (s : KState) (pid : Nat) (fd : Int) (r : open_file)
    (h0 : 0 ≤ fd) (h1 : fd < K.OPEN_MAX) (hb : s.fd_table pid fd.toNat ≠ -1)
    (hd : deref K s (s.fd_table pid fd.toNat) = some r)
    (hseek : K.SEEK_SET ≠ K.SEEK_CUR ∧ K.SEEK_SET ≠ K.SEEK_END ∧ K.SEEK_CUR ≠ K.SEEK_END)
    (pos whence retval64 st_size : Int)
    (hoff : 0 ≤ r.offset) (hsize : 0 ≤ st_size) (hpos : -9223372036854775808 ≤ pos)
    (hreq : (whence ≠ K.SEEK_SET ∧ whence ≠ K.SEEK_CUR ∧ whence ≠ K.SEEK_END) ∨
      (whence = K.SEEK_SET ∧ pos < 0) ∨
      (whence = K.SEEK_CUR ∧ r.offset + pos < 0) ∨
      (whence = K.SEEK_END ∧ st_size + pos < 0)) :
    ∃ out, sys_lseek K s pid fd pos whence retval64 true 0 st_size = some out ∧
      out.ret = K.EINVAL ∧ out.st = s ∧ out.out = retval64 := by
  obtain ⟨hsc, hse, hce⟩ := hseek
  rw [sys_lseek_bound h0 h1 hb hd]
  simp only [Bool.not_eq_true, not_true_eq_false, if_false, ne_eq]
  rcases hreq with ⟨hn1, hn2, hn3⟩ | ⟨hwh, hneg⟩ | ⟨hwh, hneg⟩ | ⟨hwh, hneg⟩
  · rw [if_neg hn1, if_neg hn2, if_neg hn3]
    exact ⟨_, rfl, rfl, rfl, rfl⟩
  · subst hwh
    rw [if_pos rfl, if_pos hneg]
    exact ⟨_, rfl, rfl, rfl, rfl⟩
  · subst hwh
    have hw : toInt64 (r.offset + pos) = r.offset + pos :=
      toInt64_of_range (by omega) (by omega)
    rw [if_neg (Ne.symm hsc), if_pos rfl, hw, if_pos hneg]
    exact ⟨_, rfl, rfl, rfl, rfl⟩
  · subst hwh
    have hw : toInt64 (st_size + pos) = st_size + pos :=
      toInt64_of_range (by omega) (by omega)
    rw [if_neg (Ne.symm hse), if_neg (Ne.symm hce), if_pos rfl, hw, if_pos hneg]
    exact ⟨_, rfl, rfl, rfl, rfl⟩

/-- C13, at a concrete input: in `twoFiles`, descriptor 0 of process 0 sits at offset
10; a `SEEK_CUR` by -11 is refused. -/
theorem sys_lseek_invalid_witness :
    ∃ out, sys_lseek os161 twoFiles 0 0 (-11) os161.SEEK_CUR 99 true 0 100 = some out ∧
      out.ret = os161.EINVAL ∧ out.st = twoFiles ∧ out.out = 99 :=
  sys_lseek_invalid os161 twoFiles 0 0 ⟨10, 7, 2, 1⟩
    (by decide) (by decide) (by decide) (by decide) (by decide)
    (-11) os161.SEEK_CUR 99 100 (by decide) (by decide) (by decide)
    (Or.inr (Or.inr (Or.inl ⟨rfl, by decide⟩)))

/-- C20: with `off_t` sums taken modulo `2^64`, on a bound descriptor whose record
offset and object size are `off_t` values that are not negative, and for `pos` an
`off_t`: whenever `sys_lseek` returns 0, the offset it stores and reports is not
negative and is the exact integer `pos`, offset + `pos` or size + `pos` of the
`whence` it served; a request whose exact sum exceeds `2^63 - 1` fails and changes
nothing; so the record's offset is not negative after the call, whatever it
returns. -/
theorem sys_lseek_offset_exact (K : KConst) (s : KState) (pid : Nat) (fd : Int)
    (r : open_file)
    (h0 : 0 ≤ fd) (h1 : fd < K.OPEN_MAX) (hb : s.fd_table pid fd.toNat ≠ -1)
    (hd : deref K s (s.fd_table pid fd.toNat) = some r)
    (hseek : K.SEEK_SET ≠ K.SEEK_CUR ∧ K.SEEK_SET ≠ K.SEEK_END ∧ K.SEEK_CUR ≠ K.SEEK_END)
    (pos whence retval64 : Int) (seekable : Bool) (stat_result st_size : Int)
    (hoff0 : 0 ≤ r.offset) (hoff1 : r.offset ≤ 9223372036854775807)
    (hsz0 : 0 ≤ st_size) (hsz1 : st_size ≤ 9223372036854775807)
    (hpos0 : -9223372036854775808 ≤ pos) (hpos1 : pos ≤ 9223372036854775807) :
    ∃ out, sys_lseek K s pid fd pos whence retval64 seekable stat_result st_size = some out ∧
      (out.ret = 0 →
        ∃ cand, ((whence = K.SEEK_SET ∧ cand = pos) ∨
            (whence = K.SEEK_CUR ∧ cand = r.offset + pos) ∨
            (whence = K.SEEK_END ∧ cand = st_size + pos)) ∧
          0 ≤ cand ∧ out.out = cand ∧
          out.st.of (s.fd_table pid fd.toNat).toNat =
            some { offset := cand, v_ptr := r.v_ptr, flag := r.flag,
                   ref_counter := r.ref_counter }) ∧
      ((whence = K.SEEK_CUR ∧ 9223372036854775807 < r.offset + pos) ∨
          (whence = K.SEEK_END ∧ 9223372036854775807 < st_size + pos) →
        out.ret ≠ 0 ∧ out.st = s) ∧
      ∃ r', out.st.of (s.fd_table pid fd.toNat).toNat = some r' ∧ 0 ≤ r'.offset := by
  obtain ⟨hsc, hse, hce⟩ := hseek
  obtain ⟨_, e2, _, _, e5⟩ := K.errno_ne_zero
  have hs := (deref_some hd).2.2.2
  rw [sys_lseek_bound h0 h1 hb hd]
  by_cases hsk : ¬ seekable = true
  · rw [if_pos hsk]
    exact ⟨_, rfl, fun h => absurd h e5, fun _ => ⟨e5, rfl⟩, r, hs, hoff0⟩
  rw [if_neg hsk]
  by_cases hst : stat_result ≠ 0
  · rw [if_pos hst]
    exact ⟨_, rfl, fun h => absurd h hst, fun _ => ⟨hst, rfl⟩, r, hs, hoff0⟩
  rw [if_neg hst]
  by_cases hw1 : whence = K.SEEK_SET
  · rw [if_pos hw1]
    have hncur : whence ≠ K.SEEK_CUR := fun h => hsc (hw1.symm.trans h)
    have hnend : whence ≠ K.SEEK_END := fun h => hse (hw1.symm.trans h)
    have hover : ¬ ((whence = K.SEEK_CUR ∧ 9223372036854775807 < r.offset + pos) ∨
        (whence = K.SEEK_END ∧ 9223372036854775807 < st_size + pos)) := by
      rintro (⟨h, _⟩ | ⟨h, _⟩)
      · exact hncur h
      · exact hnend h
    by_cases hneg : pos < 0
    · rw [if_pos hneg]
      exact ⟨_, rfl, fun h => absurd h e2, fun h => absurd h hover, r, hs, hoff0⟩
    · rw [if_neg hneg]
      exact ⟨_, rfl, fun _ => ⟨pos, Or.inl ⟨hw1, rfl⟩, by omega, rfl, setOf_same _ _ _⟩,
        fun h => absurd h hover, _, setOf_same _ _ _, by show 0 ≤ pos; omega⟩
  rw [if_neg hw1]
  by_cases hw2 : whence = K.SEEK_CUR
  · rw [if_pos hw2]
    have hnend : whence ≠ K.SEEK_END := fun h => hce (hw2.symm.trans h)
    by_cases hneg : toInt64 (r.offset + pos) < 0
    · rw [if_pos hneg]
      exact ⟨_, rfl, fun h => absurd h e2, fun _ => ⟨e2, rfl⟩, r, hs, hoff0⟩
    · rw [if_neg hneg]
      have hle : r.offset + pos ≤ 9223372036854775807 := by
        by_contra hgt
        exact hneg (toInt64_overflow (by omega) (by omega))
      have hex : toInt64 (r.offset + pos) = r.offset + pos :=
        toInt64_of_range (by omega) hle
      rw [hex] at hneg ⊢
      refine ⟨_, rfl, fun _ => ⟨r.offset + pos, Or.inr (Or.inl ⟨hw2, rfl⟩), by omega, rfl,
        setOf_same _ _ _⟩, ?_, _, setOf_same _ _ _, by show 0 ≤ r.offset + pos; omega⟩
      rintro (⟨_, h⟩ | ⟨h, _⟩)
      · omega
      · exact absurd h hnend
  rw [if_neg hw2]
  by_cases hw3 : whence = K.SEEK_END
  · rw [if_pos hw3]
    by_cases hneg : toInt64 (st_size + pos) < 0
    · rw [if_pos hneg]
      exact ⟨_, rfl, fun h => absurd h e2, fun _ => ⟨e2, rfl⟩, r, hs, hoff0⟩
    · rw [if_neg hneg]
      have hle : st_size + pos ≤ 9223372036854775807 := by
        by_contra hgt
        exact hneg (toInt64_overflow (by omega) (by omega))
      have hex : toInt64 (st_size + pos) = st_size + pos :=
        toInt64_of_range (by omega) hle
      rw [hex] at hneg ⊢
      refine ⟨_, rfl, fun _ => ⟨st_size + pos, Or.inr (Or.inr ⟨hw3, rfl⟩), by omega, rfl,
        setOf_same _ _ _⟩, ?_, _, setOf_same _ _ _, by show 0 ≤ st_size + pos; omega⟩
      rintro (⟨h, _⟩ | ⟨_, h⟩)
      · exact absurd h hw2
      · omega
  · rw [if_neg hw3]
    exact ⟨_, rfl, fun h => absurd h e2, fun _ => ⟨e2, rfl⟩, r, hs, hoff0⟩

/-- C20, at a concrete input: in `twoFiles`, descriptor 0 of process 0 sits at offset
10; a `SEEK_CUR` by `2^63 - 1`, whose exact sum is `2^63 + 9`, fails and leaves the
offset at 10. -/
theorem sys_lseek_offset_exact_witness :
    ∃ out, sys_lseek os161 twoFiles 0 0 9223372036854775807 os161.SEEK_CUR 99 true 0 100
        = some out ∧
      out.ret ≠ 0 ∧ out.st = twoFiles ∧
      ∃ r', out.st.of 2 = some r' ∧ 0 ≤ r'.offset := by
  obtain ⟨out, h1, _, h3, h4⟩ := sys_lseek_offset_exact os161 twoFiles 0 0 ⟨10, 7, 2, 1⟩
    (by decide) (by decide) (by decide) (by decide) (by decide)
    9223372036854775807 os161.SEEK_CUR 99 true 0 100
    (by decide) (by decide) (by decide) (by decide) (by decide) (by decide)
  exact ⟨out, h1, (h3 (Or.inl ⟨rfl, by decide⟩)).1, (h3 (Or.inl ⟨rfl, by decide⟩)).2, h4⟩

/-! ## C14 and C15: the first two checks of `any_open` -/

theorem scanFrom_eq_none {p : Nat → Bool} {n i : Nat}
    (h : ∀ j, i ≤ j → j < i + n → p j = false) : scanFrom p n i = none := by
  cases hsc : scanFrom p n i with
  | none => rfl
  | some k =>
    obtain ⟨a, b, c, _⟩ := scanFrom_some hsc
    rw [h k a b] at c
    exact Bool.noConfusion c

theorem scanFrom_isSome {p : Nat → Bool} {n i : Nat}
    (h : ∃ j, i ≤ j ∧ j < i + n ∧ p j = true) : ∃ k, scanFrom p n i = some k := by
  cases hsc : scanFrom p n i with
  | some k => exact ⟨k, rfl⟩
  | none =>
    obtain ⟨j, a, b, c⟩ := h
    rw [scanFrom_none hsc j a b] at c
    exact Bool.noConfusion c

/-- C14: if no descriptor cell of the calling process is unbound, `any_open` returns
`ENFILE` for every path, flags and mode, whatever the access-mode bits of the flags,
makes no call at all and leaves the state and `*retval` as they were; `sys_open`
likewise returns `ENFILE`, does not call the filesystem layer and changes nothing. -/
theorem any_open_table_full (K : KConst) (s : KState) (pid : Nat)
    (hfull : ∀ i, i < K.OPEN_MAX → s.fd_table pid i ≠ -1)
    (filename : String) (flags mode retval vfs_result : Int) (new_vnode : Nat)
    (kmalloc_ok lock_ok : Bool) :
    any_open K s pid filename flags mode retval vfs_result new_vnode kmalloc_ok lock_ok
        = ⟨K.ENFILE, retval, s, []⟩ ∧
      ∀ usersrc copy_result,
        (sys_open K s pid usersrc flags mode retval copy_result filename vfs_result
            new_vnode kmalloc_ok lock_ok).ret = K.ENFILE ∧
        (sys_open K s pid usersrc flags mode retval copy_result filename vfs_result
            new_vnode kmalloc_ok lock_ok).out = retval ∧
        (sys_open K s pid usersrc flags mode retval copy_result filename vfs_result
            new_vnode kmalloc_ok lock_ok).st = s ∧
        fsCalls (sys_open K s pid usersrc flags mode retval copy_result filename vfs_result
            new_vnode kmalloc_ok lock_ok).ev = [] := by
  have hscan : scanFrom (fun i => s.fd_table pid i == -1) K.OPEN_MAX 0 = none := by
    apply scanFrom_eq_none
    intro j _ hj
    have := hfull j (by omega)
    simpa using this
  have hopen : any_open K s pid filename flags mode retval vfs_result new_vnode
      kmalloc_ok lock_ok = ⟨K.ENFILE, retval, s, []⟩ := by
    simp [any_open, hscan]
  refine ⟨hopen, fun usersrc copy_result => ?_⟩
  simp [sys_open, hopen, fsCalls, Event.isFs]

/-- C14, at a concrete input: in `fullTable` the four descriptors of process 0 are
bound; an `open` with the invalid access mode 3 is answered `ENFILE`. -/
theorem any_open_table_full_witness :
    any_open tiny fullTable 0 "/f" 3 0 99 0 7 true true = ⟨tiny.ENFILE, 99, fullTable, []⟩ :=
  (any_open_table_full tiny fullTable 0 (fun _ _ => show (0 : Int) ≠ -1 by decide)
    "/f" 3 0 99 0 7 true true).1

theorem testBit_lt_four_high {k i : Nat} (hk : k < 4) (hi : ¬ i < 2) :
    Nat.testBit k i = false := by
  apply Nat.testBit_lt_two_pow
  calc k < 2 ^ 2 := by omega
    _ ≤ 2 ^ i := Nat.pow_le_pow_right (by norm_num) (by omega)

theorem ldiff_three_small {k : Nat} (hk : k < 4) : Nat.ldiff 3 k = 3 - k := by
  apply Nat.eq_of_testBit_eq
  intro i
  rw [Nat.testBit_ldiff]
  by_cases hi : i < 2
  · interval_cases k <;> interval_cases i <;> decide
  · have h1 : Nat.testBit 3 i = false := testBit_lt_four_high (by norm_num) hi
    have h2 : Nat.testBit (3 - k) i = false := testBit_lt_four_high (by omega) hi
    rw [h1, h2]
    rfl

theorem ldiff_three (m : Nat) : Nat.ldiff 3 m = 3 - m % 4 := by
  have h : Nat.ldiff 3 m = Nat.ldiff 3 (m % 4) := by
    apply Nat.eq_of_testBit_eq
    intro i
    rw [Nat.testBit_ldiff, Nat.testBit_ldiff]
    have h4 : (4 : Nat) = 2 ^ 2 := by norm_num
    rw [h4, Nat.testBit_mod_two_pow]
    by_cases hi : i < 2
    · simp [hi]
    · simp [testBit_lt_four_high (show 3 < 4 by norm_num) hi]
  rw [h]
  exact ldiff_three_small (Nat.mod_lt _ (by norm_num))

/-- The bits selected by the mask 3 are the residue modulo 4, also for a negative
`int`. -/
theorem land_three (flags : Int) : Int.land flags 3 = flags % 4 := by
  cases flags with
  | ofNat m =>
    show ((Nat.land m 3 : Nat) : Int) = _
    have h := Nat.and_pow_two_sub_one_eq_mod m 2
    have h' : Nat.land m 3 = m % 4 := by simpa using h
    rw [h']
    simp
  | negSucc m =>
    show ((Nat.ldiff 3 m : Nat) : Int) = _
    rw [ldiff_three, Int.negSucc_eq]
    omega

/-- C15: when the calling process has an unbound descriptor cell and the access-mode
constants have the values `O_ACCMODE = 3`, `O_RDONLY = 0`, `O_WRONLY = 1`,
`O_RDWR = 2`: `any_open` returns `EINVAL` without calling `vfs_open` and without
changing the state if and only if `flags & O_ACCMODE` is none of the three modes, that
is, equals 3; these bits are the residue of `flags` modulo 4, so no other bit of
`flags` takes part in the check; in that case nothing at all is called. -/
theorem any_open_access_mode (K : KConst) (s : KState) (pid : Nat) (filename : String)
    (flags mode retval vfs_result : Int) (new_vnode : Nat) (kmalloc_ok lock_ok : Bool)
    (out : Outcome Int)
    (hfree : ∃ i, i < K.OPEN_MAX ∧ s.fd_table pid i = -1)
    (hacc : K.O_ACCMODE = 3 ∧ K.O_RDONLY = 0 ∧ K.O_WRONLY = 1 ∧ K.O_RDWR = 2)
    (hout : any_open K s pid filename flags mode retval vfs_result new_vnode
      kmalloc_ok lock_ok = out) :
    ((out.ret = K.EINVAL ∧ Event.vfs_open filename flags mode ∉ out.ev ∧ out.st = s) ↔
        Int.land flags K.O_ACCMODE = 3) ∧
      (Int.land flags K.O_ACCMODE = 3 ↔
        ¬ (Int.land flags K.O_ACCMODE = K.O_RDONLY ∨
          Int.land flags K.O_ACCMODE = K.O_WRONLY ∨
          Int.land flags K.O_ACCMODE = K.O_RDWR)) ∧
      Int.land flags K.O_ACCMODE = flags % 4 ∧
      (Int.land flags K.O_ACCMODE = 3 → out.out = retval ∧ out.ev = []) := by
  obtain ⟨ha, hr, hw, hrw⟩ := hacc
  have hmod : Int.land flags K.O_ACCMODE = flags % 4 := by rw [ha]; exact land_three flags
  have hiff : Int.land flags K.O_ACCMODE = 3 ↔
      ¬ (Int.land flags K.O_ACCMODE = K.O_RDONLY ∨
        Int.land flags K.O_ACCMODE = K.O_WRONLY ∨
        Int.land flags K.O_ACCMODE = K.O_RDWR) := by
    rw [hmod, hr, hw, hrw]
    omega
  obtain ⟨fd, hfd⟩ : ∃ fd, scanFrom (fun i => s.fd_table pid i == -1) K.OPEN_MAX 0 = some fd := by
    apply scanFrom_isSome
    obtain ⟨i, hi, hcell⟩ := hfree
    exact ⟨i, Nat.zero_le _, by omega, by simp [hcell]⟩
  subst hout
  refine ⟨?_, hiff, hmod, ?_⟩
  · by_cases hm : Int.land flags K.O_ACCMODE = K.O_RDONLY ∨
        Int.land flags K.O_ACCMODE = K.O_WRONLY ∨ Int.land flags K.O_ACCMODE = K.O_RDWR
    · have hn3 : ¬ Int.land flags K.O_ACCMODE = 3 := fun h => (hiff.mp h) hm
      refine ⟨fun h => ?_, fun h => absurd h hn3⟩
      exfalso
      apply h.2.1
      by_cases hv : vfs_result = 0
      swap
      · simp [any_open, hfd, hm, hv]
      rcases hof : scanFrom (fun j => (s.of j).isNone) K.OPEN_MAX 0 with _ | of_n
      · simp [any_open, hfd, hm, hv, hof]
      cases kmalloc_ok
      · simp [any_open, hfd, hm, hv, hof]
      cases lock_ok
      · simp [any_open, hfd, hm, hv, hof]
      · simp [any_open, hfd, hm, hv, hof]
    · have h3 : Int.land flags K.O_ACCMODE = 3 := hiff.mpr hm
      refine ⟨fun _ => h3, fun _ => ?_⟩
      simp [any_open, hfd, hm]
  · intro h3
    have hm := hiff.mp h3
    simp [any_open, hfd, hm]

/-- C15, at a concrete input: on the initial state, `open` with flags `64 + 3` (the
invalid access mode 3 with another bit set) is answered `EINVAL` before `vfs_open`. -/
theorem any_open_access_mode_witness :
    (any_open os161 initState 0 "/f" 67 0 99 0 7 true true).ret = os161.EINVAL ∧
      Event.vfs_open "/f" 67 0 ∉ (any_open os161 initState 0 "/f" 67 0 99 0 7 true true).ev ∧
      (any_open os161 initState 0 "/f" 67 0 99 0 7 true true).st = initState :=
  ((any_open_access_mode os161 initState 0 "/f" 67 0 99 0 7 true true _
    ⟨0, by decide, rfl⟩ ⟨rfl, rfl, rfl, rfl⟩ rfl).1).mpr (by decide)

/-! ## C16 and C19: `sys_dup2` of a descriptor onto itself -/

/-- C16: for every descriptor `fd` in range, `sys_dup2(fd, fd)` returns 0 when `fd`
is bound and `EBADF` when it is unbound; in both cases it makes no call and leaves
the whole state, hence every descriptor cell, every Directory cell and the record's
`ref_counter` and offset, as it was, so that repeating the call changes nothing. -/
theorem sys_dup2_self (K : KConst) (s : KState) (pid : Nat) (fd retval : Int)
    (h0 : 0 ≤ fd) (h1 : fd < K.OPEN_MAX) :
    (s.fd_table pid fd.toNat ≠ -1 →
        sys_dup2 K s pid fd fd retval = some ⟨0, retval, s, []⟩) ∧
      (s.fd_table pid fd.toNat = -1 →
        sys_dup2 K s pid fd fd retval = some ⟨K.EBADF, retval, s, []⟩) := by
  have hr : ¬ (fd < 0 ∨ fd ≥ K.OPEN_MAX) := by omega
  constructor
  · intro hb
    simp [sys_dup2, hr, hb]
  · intro hu
    simp [sys_dup2, hr, hu]

/-- C16, at a concrete input: in `twoFiles`, descriptor 1 of process 0 is bound and
descriptor 2 is not. -/
theorem sys_dup2_self_witness :
    sys_dup2 os161 twoFiles 0 1 1 99 = some ⟨0, 99, twoFiles, []⟩ ∧
      sys_dup2 os161 twoFiles 0 2 2 99 = some ⟨os161.EBADF, 99, twoFiles, []⟩ :=
  ⟨(sys_dup2_self os161 twoFiles 0 1 99 (by decide) (by decide)).1 (by decide),
    (sys_dup2_self os161 twoFiles 0 2 99 (by decide) (by decide)).2 (by decide)⟩

/-- C19, evaluated: in `twoFiles`, with `*retval` holding 0 before the call,
`sys_dup2(1, 1)` returns 0 and leaves 0 in `*retval` instead of storing `new_fd = 1`,
whereas `sys_dup2(0, 1)` returns 0 and stores 1. -/
theorem sys_dup2_self_retval_not_stored :
    (sys_dup2 os161 twoFiles 0 1 1 0).map (fun out => (out.ret, out.out)) = some (0, 0) ∧
      (sys_dup2 os161 twoFiles 0 0 1 0).map (fun out => (out.ret, out.out)) = some (0, 1) := by
  decide

/-! ## The events of `sys_close` and `sys_dup2` -/

theorem locksHeld_append (a b : List Event) :
    ∀ held, locksHeld held (a ++ b) = locksHeld (locksHeld held a) b := by
  induction a with
  | nil => intro held; rfl
  | cons e es ih =>
    intro held
    cases e <;> simp [locksHeld, ih]

theorem destroysReleased_append (a b : List Event) :
    ∀ held, destroysReleased held (a ++ b) =
      (destroysReleased held a && destroysReleased (locksHeld held a) b) := by
  induction a with
  | nil => intro held; simp [destroysReleased, locksHeld]
  | cons e es ih =>
    intro held
    cases e <;> simp [destroysReleased, locksHeld, ih, Bool.and_assoc]

/-- Acquiring and releasing a record lock after the events adds no filesystem call
under `of_table_lock`. -/
theorem fsUnderTableLock_append_record (a : List Event) (j : Nat) :
    ∀ held, fsUnderTableLock held
        (a ++ [Event.lock_acquire (LockId.of_lock j), Event.lock_release (LockId.of_lock j)])
      = fsUnderTableLock held a := by
  induction a with
  | nil => intro held; simp [fsUnderTableLock, Event.isFs]
  | cons e es ih =>
    intro held
    cases e with
    | lock_acquire l => cases l <;> simp [fsUnderTableLock, ih, Event.isFs]
    | lock_release l => cases l <;> simp [fsUnderTableLock, ih, Event.isFs]
    | _ => simp [fsUnderTableLock, ih, Event.isFs]

/-- The events of a call of `sys_close` that returns: none when the descriptor is out
of range or unbound, else one of three lists, chosen by the record's `ref_counter`. -/
theorem sys_close_events {K : KConst} {s : KState} {pid : Nat} {fd : Int}
    {c : Outcome Unit} (hc : sys_close K s pid fd = some c) :
    ((fd < 0 ∨ fd ≥ K.OPEN_MAX ∨ s.fd_table pid fd.toNat = -1) ∧ c.ev = []) ∨
    ∃ r, 0 ≤ fd ∧ fd < K.OPEN_MAX ∧ s.fd_table pid fd.toNat ≠ -1 ∧
      deref K s (s.fd_table pid fd.toNat) = some r ∧
      ((1 < r.ref_counter ∧ c.ev =
          [Event.lock_acquire LockId.of_table_lock,
           Event.lock_acquire (LockId.of_lock (s.fd_table pid fd.toNat).toNat),
           Event.lock_release (LockId.of_lock (s.fd_table pid fd.toNat).toNat),
           Event.lock_release LockId.of_table_lock]) ∨
        (r.ref_counter = 1 ∧ c.ev =
          [Event.lock_acquire LockId.of_table_lock,
           Event.lock_acquire (LockId.of_lock (s.fd_table pid fd.toNat).toNat),
           Event.vfs_close r.v_ptr,
           Event.lock_release (LockId.of_lock (s.fd_table pid fd.toNat).toNat),
           Event.lock_destroy (LockId.of_lock (s.fd_table pid fd.toNat).toNat),
           Event.kfree,
           Event.lock_release LockId.of_table_lock]) ∨
        (r.ref_counter < 1 ∧ c.ev =
          [Event.lock_acquire LockId.of_table_lock,
           Event.lock_acquire (LockId.of_lock (s.fd_table pid fd.toNat).toNat),
           Event.lock_release LockId.of_table_lock])) := by
  by_cases hr : fd < 0 ∨ fd ≥ K.OPEN_MAX
  · left
    have : c = ⟨K.EBADF, (), s, []⟩ := by
      have h := hc
      simp only [sys_close, hr, if_true] at h
      exact (Option.some.inj h).symm
    subst this
    exact ⟨by omega, rfl⟩
  by_cases hu : s.fd_table pid fd.toNat = -1
  · left
    have : c = ⟨K.EBADF, (), s, []⟩ := by
      have h := hc
      simp only [sys_close, hr, hu, if_false, if_true] at h
      exact (Option.some.inj h).symm
    subst this
    exact ⟨Or.inr (Or.inr hu), rfl⟩
  right
  have h0 : 0 ≤ fd := by omega
  have h1 : fd < K.OPEN_MAX := by omega
  cases hd : deref K s (s.fd_table pid fd.toNat) with
  | none =>
    have h := hc
    simp [sys_close, hr, hu, hd] at h
  | some r =>
    refine ⟨r, h0, h1, hu, rfl, ?_⟩
    rw [sys_close_bound h0 h1 hu hd] at hc
    by_cases hgt : r.ref_counter > 1
    · rw [if_pos hgt] at hc
      have := (Option.some.inj hc).symm
      subst this
      exact Or.inl ⟨hgt, rfl⟩
    · by_cases h1' : r.ref_counter = 1
      · rw [if_neg hgt, if_pos h1'] at hc
        have := (Option.some.inj hc).symm
        subst this
        exact Or.inr (Or.inl ⟨h1', rfl⟩)
      · rw [if_neg hgt, if_neg h1'] at hc
        have := (Option.some.inj hc).symm
        subst this
        exact Or.inr (Or.inr ⟨by omega, rfl⟩)

theorem dup2_bind_events {K : KConst} {s1 : KState} {ev1 : List Event} {pid : Nat}
    {new_fd of_n : Int} {out : Outcome Int}
    (h : dup2_bind K s1 ev1 pid new_fd of_n = some out) :
    out.ev = ev1 ++ [Event.lock_acquire (LockId.of_lock of_n.toNat),
      Event.lock_release (LockId.of_lock of_n.toNat)] := by
  unfold dup2_bind at h
  cases hd : deref K s1 of_n with
  | none => simp [hd] at h
  | some target =>
    simp only [hd] at h
    have := (Option.some.inj h).symm
    subst this
    rfl

/-- The events of a call of `sys_dup2` that returns: none, or those of the implicit
close of `new_fd`, or the acquisition and release of the lock of `old_fd`'s record,
or the latter after the former. -/
theorem sys_dup2_events {K : KConst} {s : KState} {pid : Nat} {old_fd new_fd retval : Int}
    {out : Outcome Int} (h : sys_dup2 K s pid old_fd new_fd retval = some out) :
    out.ev = [] ∨
    out.ev = [Event.lock_acquire (LockId.of_lock (s.fd_table pid old_fd.toNat).toNat),
      Event.lock_release (LockId.of_lock (s.fd_table pid old_fd.toNat).toNat)] ∨
    ∃ c, sys_close K s pid new_fd = some c ∧ 0 ≤ new_fd ∧ new_fd < K.OPEN_MAX ∧
      s.fd_table pid new_fd.toNat ≠ -1 ∧
      (out.ev = c.ev ∨
        out.ev = c.ev ++
          [Event.lock_acquire (LockId.of_lock (s.fd_table pid old_fd.toNat).toNat),
           Event.lock_release (LockId.of_lock (s.fd_table pid old_fd.toNat).toNat)]) := by
  by_cases hr1 : old_fd < 0 ∨ old_fd ≥ K.OPEN_MAX
  · left
    simp only [sys_dup2, hr1, if_true] at h
    have := (Option.some.inj h).symm
    subst this
    rfl
  by_cases hr2 : new_fd < 0 ∨ new_fd ≥ K.OPEN_MAX
  · left
    simp only [sys_dup2, hr1, hr2, if_true, if_false] at h
    have := (Option.some.inj h).symm
    subst this
    rfl
  by_cases hu : s.fd_table pid old_fd.toNat = -1
  · left
    simp only [sys_dup2, hr1, hr2, hu, if_true, if_false] at h
    have := (Option.some.inj h).symm
    subst this
    rfl
  by_cases heq : old_fd = new_fd
  · left
    subst heq
    simp only [sys_dup2, hr1, hu, if_true, if_false] at h
    have := (Option.some.inj h).symm
    subst this
    rfl
  by_cases hnu : s.fd_table pid new_fd.toNat = -1
  · right
    left
    have hb : dup2_bind K s [] pid new_fd (s.fd_table pid old_fd.toNat) = some out := by
      simpa [sys_dup2, hr1, hr2, hu, heq, hnu] using h
    simpa using dup2_bind_events hb
  · right
    right
    cases hc : sys_close K s pid new_fd with
    | none => simp [sys_dup2, hr1, hr2, hu, heq, hnu, hc] at h
    | some c =>
      refine ⟨c, rfl, by omega, by omega, hnu, ?_⟩
      by_cases hc0 : c.ret = 0
      · right
        have hb : dup2_bind K c.st c.ev pid new_fd (s.fd_table pid old_fd.toNat) = some out := by
          simpa [sys_dup2, hr1, hr2, hu, heq, hnu, hc, hc0] using h
        exact dup2_bind_events hb
      · left
        have ho : out = ⟨c.ret, retval, c.st, c.ev⟩ := by
          have h' := h
          simp [sys_dup2, hr1, hr2, hu, heq, hnu, hc, hc0] at h'
          exact h'.symm
        subst ho
        rfl

/-! ## C17: filesystem calls while `of_table_lock` is held -/

/-- The filesystem calls `sys_close` makes under `of_table_lock`: none, except the
`vfs_close` of a record whose last reference is closed. -/
theorem sys_close_fs_under_lock {K : KConst} {s : KState} {pid : Nat} {fd : Int}
    {c : Outcome Unit} (hc : sys_close K s pid fd = some c) :
    fsUnderTableLock false c.ev = [] ∨
    ∃ r, deref K s (s.fd_table pid fd.toNat) = some r ∧ r.ref_counter = 1 ∧
      fsUnderTableLock false c.ev = [Event.vfs_close r.v_ptr] := by
  rcases sys_close_events hc with ⟨_, hev⟩ | ⟨r, _, _, _, hd, hcases⟩
  · left
    rw [hev]
    rfl
  · rcases hcases with ⟨_, hev⟩ | ⟨h1, hev⟩ | ⟨_, hev⟩
    · left
      rw [hev]
      simp [fsUnderTableLock, Event.isFs]
    · right
      refine ⟨r, hd, h1, ?_⟩
      rw [hev]
      simp [fsUnderTableLock, Event.isFs]
    · left
      rw [hev]
      simp [fsUnderTableLock, Event.isFs]

/-- C17, as stated, fails: in `twoFiles`, closing descriptor 1 of process 0, the last
reference to its record, calls `vfs_close` on vnode 8 between the acquisition and the
release of `of_table_lock`; so does `sys_dup2(0, 1)` through its implicit close; and
`any_open`, when `lock_create` fails, calls `vfs_close` on the vnode it opened before
it releases `of_table_lock`. -/
theorem vfs_close_under_table_lock :
    (sys_close os161 twoFiles 0 1).map (fun out => fsUnderTableLock false out.ev)
        = some [Event.vfs_close 8] ∧
      (sys_dup2 os161 twoFiles 0 0 1 0).map (fun out => fsUnderTableLock false out.ev)
        = some [Event.vfs_close 8] ∧
      fsUnderTableLock false (any_open os161 initState 0 "/f" 2 0 0 0 7 true false).ev
        = [Event.vfs_close 7] := by
  decide

/-- On a descriptor in range bound to a record, `sys_close` returns, and what it
calls in the filesystem layer under `of_table_lock` is decided by the record's
`ref_counter`: the `vfs_close` of the record's vnode when it is 1, nothing
otherwise. -/
theorem sys_close_fs_cases {K : KConst} {s : KState} {pid : Nat} {fd : Int} {r : open_file}
    (h0 : 0 ≤ fd) (h1 : fd < K.OPEN_MAX) (hb : s.fd_table pid fd.toNat ≠ -1)
    (hd : deref K s (s.fd_table pid fd.toNat) = some r) :
    ∃ out, sys_close K s pid fd = some out ∧
      (r.ref_counter = 1 → fsUnderTableLock false out.ev = [Event.vfs_close r.v_ptr]) ∧
      (r.ref_counter ≠ 1 → fsUnderTableLock false out.ev = []) := by
  rw [sys_close_bound h0 h1 hb hd]
  by_cases hgt : r.ref_counter > 1
  · rw [if_pos hgt]
    exact ⟨_, rfl, fun h => by omega, fun _ => by simp [fsUnderTableLock, Event.isFs]⟩
  · by_cases h1' : r.ref_counter = 1
    · rw [if_neg hgt, if_pos h1']
      exact ⟨_, rfl, fun _ => by simp [fsUnderTableLock, Event.isFs], fun h => absurd h1' h⟩
    · rw [if_neg hgt, if_neg h1']
      exact ⟨_, rfl, fun h => absurd h h1', fun _ => by simp [fsUnderTableLock, Event.isFs]⟩

/-- The events of a call of `sys_dup2` that returns, by the path taken: without an
implicit close there is no event or only the acquisition and release of the lock of
`old_fd`'s record; with an implicit close the events are those of `sys_close(new_fd)`,
followed or not by that acquisition and release. -/
theorem sys_dup2_events_cases {K : KConst} {s : KState} {pid : Nat}
    {old_fd new_fd retval : Int} {out : Outcome Int}
    (h : sys_dup2 K s pid old_fd new_fd retval = some out) :
    (((old_fd < 0 ∨ old_fd ≥ K.OPEN_MAX) ∨ (new_fd < 0 ∨ new_fd ≥ K.OPEN_MAX) ∨
        s.fd_table pid old_fd.toNat = -1 ∨ old_fd = new_fd ∨
        s.fd_table pid new_fd.toNat = -1) ∧
      (out.ev = [] ∨
        out.ev = [Event.lock_acquire (LockId.of_lock (s.fd_table pid old_fd.toNat).toNat),
          Event.lock_release (LockId.of_lock (s.fd_table pid old_fd.toNat).toNat)])) ∨
    (¬ (old_fd < 0 ∨ old_fd ≥ K.OPEN_MAX) ∧ ¬ (new_fd < 0 ∨ new_fd ≥ K.OPEN_MAX) ∧
      s.fd_table pid old_fd.toNat ≠ -1 ∧ old_fd ≠ new_fd ∧
      s.fd_table pid new_fd.toNat ≠ -1 ∧
      ∃ c, sys_close K s pid new_fd = some c ∧
        (out.ev = c.ev ∨
          out.ev = c.ev ++
            [Event.lock_acquire (LockId.of_lock (s.fd_table pid old_fd.toNat).toNat),
             Event.lock_release (LockId.of_lock (s.fd_table pid old_fd.toNat).toNat)])) := by
  by_cases hr1 : old_fd < 0 ∨ old_fd ≥ K.OPEN_MAX
  · left
    simp only [sys_dup2, hr1, if_true] at h
    have := (Option.some.inj h).symm
    subst this
    exact ⟨Or.inl hr1, Or.inl rfl⟩
  by_cases hr2 : new_fd < 0 ∨ new_fd ≥ K.OPEN_MAX
  · left
    simp only [sys_dup2, hr1, hr2, if_true, if_false] at h
    have := (Option.some.inj h).symm
    subst this
    exact ⟨Or.inr (Or.inl hr2), Or.inl rfl⟩
  by_cases hu : s.fd_table pid old_fd.toNat = -1
  · left
    simp only [sys_dup2, hr1, hr2, hu, if_true, if_false] at h
    have := (Option.some.inj h).symm
    subst this
    exact ⟨Or.inr (Or.inr (Or.inl hu)), Or.inl rfl⟩
  by_cases heq : old_fd = new_fd
  · left
    refine ⟨Or.inr (Or.inr (Or.inr (Or.inl heq))), Or.inl ?_⟩
    subst heq
    simp only [sys_dup2, hr1, hu, if_true, if_false] at h
    have := (Option.some.inj h).symm
    subst this
    rfl
  by_cases hnu : s.fd_table pid new_fd.toNat = -1
  · left
    refine ⟨Or.inr (Or.inr (Or.inr (Or.inr hnu))), Or.inr ?_⟩
    have hb : dup2_bind K s [] pid new_fd (s.fd_table pid old_fd.toNat) = some out := by
      simpa [sys_dup2, hr1, hr2, hu, heq, hnu] using h
    simpa using dup2_bind_events hb
  · right
    refine ⟨hr1, hr2, hu, heq, hnu, ?_⟩
    cases hc : sys_close K s pid new_fd with
    | none => simp [sys_dup2, hr1, hr2, hu, heq, hnu, hc] at h
    | some c =>
      refine ⟨c, rfl, ?_⟩
      by_cases hc0 : c.ret = 0
      · right
        have hb : dup2_bind K c.st c.ev pid new_fd (s.fd_table pid old_fd.toNat) = some out := by
          simpa [sys_dup2, hr1, hr2, hu, heq, hnu, hc, hc0] using h
        exact dup2_bind_events hb
      · left
        have ho : out = ⟨c.ret, retval, c.st, c.ev⟩ := by
          have h' := h
          simp [sys_dup2, hr1, hr2, hu, heq, hnu, hc, hc0] at h'
          exact h'.symm
        subst ho
        rfl

/-- C17, amended: in `any_open` and `sys_open`, unless `lock_create` fails, no call
into the filesystem layer is made while `of_table_lock` is held.  `sys_close` on a
descriptor bound to a record returns, and while it holds `of_table_lock` it calls
`vfs_close` on the record's vnode, once, when the record's `ref_counter` is 1, and
nothing of the filesystem layer otherwise; on a descriptor out of range or unbound it
calls nothing.  `sys_dup2` with `new_fd` bound to a record makes under `of_table_lock`
exactly the calls of that implicit close of `new_fd` (it returns and makes the
`vfs_close` whenever `new_fd` holds the last reference to a record other than
`old_fd`'s); on every other path it calls nothing under the lock. -/
theorem fs_calls_under_table_lock (K : KConst) (s : KState) (pid : Nat) :
    (∀ filename flags mode retval vfs_result new_vnode kmalloc_ok lock_ok,
      Event.lock_create false ∉ (any_open K s pid filename flags mode retval vfs_result
          new_vnode kmalloc_ok lock_ok).ev →
        fsUnderTableLock false (any_open K s pid filename flags mode retval vfs_result
          new_vnode kmalloc_ok lock_ok).ev = [] ∧
        ∀ usersrc copy_result, fsUnderTableLock false (sys_open K s pid usersrc flags mode
          retval copy_result filename vfs_result new_vnode kmalloc_ok lock_ok).ev = []) ∧
    (∀ fd out, sys_close K s pid fd = some out →
      fsUnderTableLock false out.ev = [] ∨
      ∃ r, deref K s (s.fd_table pid fd.toNat) = some r ∧ r.ref_counter = 1 ∧
        fsUnderTableLock false out.ev = [Event.vfs_close r.v_ptr]) ∧
    (∀ old_fd new_fd retval out, sys_dup2 K s pid old_fd new_fd retval = some out →
      fsUnderTableLock false out.ev = [] ∨
      ∃ r, deref K s (s.fd_table pid new_fd.toNat) = some r ∧ r.ref_counter = 1 ∧
        fsUnderTableLock false out.ev = [Event.vfs_close r.v_ptr]) ∧
    (∀ (fd : Int) (r : open_file), 0 ≤ fd → fd < K.OPEN_MAX →
      s.fd_table pid fd.toNat ≠ -1 →
      deref K s (s.fd_table pid fd.toNat) = some r →
      ∃ out, sys_close K s pid fd = some out ∧
        (r.ref_counter = 1 → fsUnderTableLock false out.ev = [Event.vfs_close r.v_ptr]) ∧
        (r.ref_counter ≠ 1 → fsUnderTableLock false out.ev = [])) ∧
    (∀ fd out, sys_close K s pid fd = some out →
      (fd < 0 ∨ fd ≥ K.OPEN_MAX ∨ s.fd_table pid fd.toNat = -1) →
      fsUnderTableLock false out.ev = []) ∧
    (∀ (old_fd new_fd retval : Int) (r : open_file) (out : Outcome Int),
      0 ≤ old_fd → old_fd < K.OPEN_MAX → 0 ≤ new_fd → new_fd < K.OPEN_MAX →
      old_fd ≠ new_fd → s.fd_table pid old_fd.toNat ≠ -1 →
      s.fd_table pid new_fd.toNat ≠ -1 →
      deref K s (s.fd_table pid new_fd.toNat) = some r →
      sys_dup2 K s pid old_fd new_fd retval = some out →
        (r.ref_counter = 1 → fsUnderTableLock false out.ev = [Event.vfs_close r.v_ptr]) ∧
        (r.ref_counter ≠ 1 → fsUnderTableLock false out.ev = [])) ∧
    (∀ (old_fd new_fd retval : Int) (r rs : open_file),
      0 ≤ old_fd → old_fd < K.OPEN_MAX → 0 ≤ new_fd → new_fd < K.OPEN_MAX →
      old_fd ≠ new_fd → s.fd_table pid old_fd.toNat ≠ -1 →
      s.fd_table pid new_fd.toNat ≠ -1 →
      s.fd_table pid new_fd.toNat ≠ s.fd_table pid old_fd.toNat →
      deref K s (s.fd_table pid new_fd.toNat) = some r →
      deref K s (s.fd_table pid old_fd.toNat) = some rs →
      r.ref_counter = 1 →
      ∃ out, sys_dup2 K s pid old_fd new_fd retval = some out ∧
        fsUnderTableLock false out.ev = [Event.vfs_close r.v_ptr]) ∧
    (∀ old_fd new_fd retval out, sys_dup2 K s pid old_fd new_fd retval = some out →
      ((old_fd < 0 ∨ old_fd ≥ K.OPEN_MAX) ∨ (new_fd < 0 ∨ new_fd ≥ K.OPEN_MAX) ∨
        s.fd_table pid old_fd.toNat = -1 ∨ old_fd = new_fd ∨
        s.fd_table pid new_fd.toNat = -1) →
      fsUnderTableLock false out.ev = []) := by
  refine ⟨?_, fun fd out h => sys_close_fs_under_lock h, ?_,
    fun fd r h0 h1 hb hd => sys_close_fs_cases h0 h1 hb hd, ?_, ?_, ?_, ?_⟩
  · intro filename flags mode retval vfs_result new_vnode kmalloc_ok lock_ok hno
    have hopen : fsUnderTableLock false (any_open K s pid filename flags mode retval
        vfs_result new_vnode kmalloc_ok lock_ok).ev = [] := by
      rcases hfd : scanFrom (fun i => s.fd_table pid i == -1) K.OPEN_MAX 0 with _ | fd
      · simp [any_open, hfd, fsUnderTableLock]
      by_cases hm : Int.land flags K.O_ACCMODE = K.O_RDONLY ∨
          Int.land flags K.O_ACCMODE = K.O_WRONLY ∨ Int.land flags K.O_ACCMODE = K.O_RDWR
      swap
      · simp [any_open, hfd, hm, fsUnderTableLock]
      by_cases hv : vfs_result = 0
      swap
      · simp [any_open, hfd, hm, hv, fsUnderTableLock, Event.isFs]
      rcases hof : scanFrom (fun j => (s.of j).isNone) K.OPEN_MAX 0 with _ | of_n
      · simp [any_open, hfd, hm, hv, hof, fsUnderTableLock, Event.isFs]
      cases kmalloc_ok
      · simp [any_open, hfd, hm, hv, hof, fsUnderTableLock, Event.isFs]
      cases lock_ok
      · exfalso
        apply hno
        simp [any_open, hfd, hm, hv, hof]
      · simp [any_open, hfd, hm, hv, hof, fsUnderTableLock, Event.isFs]
    refine ⟨hopen, fun usersrc copy_result => ?_⟩
    show fsUnderTableLock false (Event.copyinstr usersrc copy_result :: _) = []
    simpa [fsUnderTableLock, Event.isFs] using hopen
  · intro old_fd new_fd retval out h
    rcases sys_dup2_events h with hev | hev | ⟨c, hc, _, _, _, hev | hev⟩
    · left
      rw [hev]
      rfl
    · left
      rw [hev]
      simp [fsUnderTableLock, Event.isFs]
    · rw [hev]
      exact sys_close_fs_under_lock hc
    · rw [hev, fsUnderTableLock_append_record]
      exact sys_close_fs_under_lock hc
  · intro fd out h hbad
    rcases sys_close_events h with ⟨_, hev⟩ | ⟨r, h0, h1, hb, _, _⟩
    · rw [hev]
      rfl
    · omega
  · intro old_fd new_fd retval r out ho0 ho1 hn0 hn1 hne hob hnb hd h
    obtain ⟨c', hc', hone, hnot⟩ := sys_close_fs_cases hn0 hn1 hnb hd
    rcases sys_dup2_events_cases h with ⟨hbad, _⟩ | ⟨_, _, _, _, _, c, hc, hev⟩
    · exfalso
      rcases hbad with hb | hb | hb | hb | hb
      · omega
      · omega
      · exact hob hb
      · exact hne hb
      · exact hnb hb
    · rw [hc'] at hc
      have hcc : c' = c := Option.some.inj hc
      subst hcc
      rcases hev with hev | hev
      · rw [hev]
        exact ⟨hone, hnot⟩
      · rw [hev, fsUnderTableLock_append_record]
        exact ⟨hone, hnot⟩
  · intro old_fd new_fd retval r rs ho0 ho1 hn0 hn1 hne hob hnb hdiff hd hds hr1
    obtain ⟨hs0, hs1, _, hsS⟩ := deref_some hds
    obtain ⟨ht0, _, _, _⟩ := deref_some hd
    have hST : (s.fd_table pid old_fd.toNat).toNat ≠ (s.fd_table pid new_fd.toNat).toNat := by
      omega
    have hcl := sys_close_bound hn0 hn1 hnb hd
    rw [if_neg (by omega), if_pos hr1] at hcl
    have hdc := (deref_setOf_other K s.of (setFd s.fd_table pid new_fd.toNat (-1))
      none hs0 hs1 hST).trans hsS
    rw [sys_dup2_bound retval ho0 ho1 hn0 hn1 hne hob hnb hcl rfl hdc]
    refine ⟨_, rfl, ?_⟩
    show fsUnderTableLock false (_ ++ _) = _
    rw [fsUnderTableLock_append_record]
    simp [fsUnderTableLock, Event.isFs]
  · intro old_fd new_fd retval out h hbad
    rcases sys_dup2_events_cases h with ⟨_, hev | hev⟩ | ⟨h1, h2, h3, h4, h5, _⟩
    · rw [hev]
      rfl
    · rw [hev]
      simp [fsUnderTableLock, Event.isFs]
    · exfalso
      rcases hbad with hb | hb | hb | hb | hb
      · exact h1 hb
      · exact h2 hb
      · exact h3 hb
      · exact h4 hb
      · exact h5 hb

/-- C17, amended, at a concrete input: a successful `open` on the initial state calls
nothing under `of_table_lock`; in `twoFiles`, closing descriptor 0 of process 0, the
last reference to its record, calls `vfs_close` on vnode 7 under `of_table_lock`, and
`sys_dup2(0, 1)` calls `vfs_close` on vnode 8 under it. -/
theorem fs_calls_under_table_lock_witness :
    fsUnderTableLock false (any_open os161 initState 0 "/f" 2 0 0 0 7 true true).ev = [] ∧
      (∃ out, sys_close os161 twoFiles 0 0 = some out ∧
        fsUnderTableLock false out.ev = [Event.vfs_close 7]) ∧
      (∃ out, sys_dup2 os161 twoFiles 0 0 1 0 = some out ∧
        fsUnderTableLock false out.ev = [Event.vfs_close 8]) := by
  refine ⟨((fs_calls_under_table_lock os161 initState 0).1 "/f" 2 0 0 0 7 true true
      (by decide)).1, ?_, ?_⟩
  · obtain ⟨out, h1, h2, _⟩ := (fs_calls_under_table_lock os161 twoFiles 0).2.2.2.1 0
      ⟨10, 7, 2, 1⟩ (by decide) (by decide) (by decide) (by decide)
    exact ⟨out, h1, h2 rfl⟩
  · exact (fs_calls_under_table_lock os161 twoFiles 0).2.2.2.2.2.2.1 0 1 0
      ⟨0, 8, 0, 1⟩ ⟨10, 7, 2, 1⟩ (by decide) (by decide) (by decide) (by decide)
      (by decide) (by decide) (by decide) (by decide) (by decide) (by decide) rfl

/-! ## C18: locks held when a call returns -/

theorem any_open_locks (K : KConst) (s : KState) (pid : Nat) (filename : String)
    (flags mode retval vfs_result : Int) (new_vnode : Nat) (kmalloc_ok lock_ok : Bool) :
    locksHeld [] (any_open K s pid filename flags mode retval vfs_result new_vnode
      kmalloc_ok lock_ok).ev = [] := by
  rcases hfd : scanFrom (fun i => s.fd_table pid i == -1) K.OPEN_MAX 0 with _ | fd
  · simp [any_open, hfd, locksHeld]
  by_cases hm : Int.land flags K.O_ACCMODE = K.O_RDONLY ∨
      Int.land flags K.O_ACCMODE = K.O_WRONLY ∨ Int.land flags K.O_ACCMODE = K.O_RDWR
  swap
  · simp [any_open, hfd, hm, locksHeld]
  by_cases hv : vfs_result = 0
  swap
  · simp [any_open, hfd, hm, hv, locksHeld]
  rcases hof : scanFrom (fun j => (s.of j).isNone) K.OPEN_MAX 0 with _ | of_n
  · simp [any_open, hfd, hm, hv, hof, locksHeld]
  cases kmalloc_ok
  · simp [any_open, hfd, hm, hv, hof, locksHeld]
  cases lock_ok
  · simp [any_open, hfd, hm, hv, hof, locksHeld]
  · simp [any_open, hfd, hm, hv, hof, locksHeld]

/-- When every record has `ref_counter ≥ 1`, a call of `sys_close` that returns holds
no lock and has destroyed no lock that was held. -/
theorem sys_close_locks {K : KConst} {s : KState} {pid : Nat} {fd : Int}
    (hpos : ∀ j r, j < K.OPEN_MAX → s.of j = some r → 1 ≤ r.ref_counter)
    {c : Outcome Unit} (hc : sys_close K s pid fd = some c) :
    locksHeld [] c.ev = [] ∧ destroysReleased [] c.ev = true := by
  rcases sys_close_events hc with ⟨_, hev⟩ | ⟨r, _, _, _, hd, hcases⟩
  · rw [hev]
    exact ⟨rfl, rfl⟩
  · obtain ⟨_, _, hJ, hS⟩ := deref_some hd
    have hr := hpos _ r hJ hS
    rcases hcases with ⟨_, hev⟩ | ⟨_, hev⟩ | ⟨hlt, _⟩
    · rw [hev]
      simp [locksHeld, destroysReleased]
    · rw [hev]
      simp [locksHeld, destroysReleased]
    · omega

theorem sys_read_locks {K : KConst} {s : KState} {pid : Nat}
    {fd buflen retval result uio_offset uio_resid : Int} {out : Outcome Int}
    (h : sys_read K s pid fd buflen retval result uio_offset uio_resid = some out) :
    locksHeld [] out.ev = [] := by
  by_cases hr : fd < 0 ∨ fd ≥ K.OPEN_MAX
  · simp only [sys_read, hr, if_true] at h
    have := (Option.some.inj h).symm
    subst this
    rfl
  by_cases hu : s.fd_table pid fd.toNat = -1
  · simp only [sys_read, hr, hu, if_true, if_false] at h
    have := (Option.some.inj h).symm
    subst this
    rfl
  cases hd : deref K s (s.fd_table pid fd.toNat) with
  | none => simp [sys_read, hr, hu, hd] at h
  | some r =>
    rw [sys_read_bound (by omega) (by omega) hu hd] at h
    split_ifs at h
    all_goals
      have := (Option.some.inj h).symm
      subst this
      simp [locksHeld]

theorem sys_write_locks {K : KConst} {s : KState} {pid : Nat}
    {fd nbytes retval result uio_offset uio_resid : Int} {out : Outcome Int}
    (h : sys_write K s pid fd nbytes retval result uio_offset uio_resid = some out) :
    locksHeld [] out.ev = [] := by
  by_cases hr : fd < 0 ∨ fd ≥ K.OPEN_MAX
  · simp only [sys_write, hr, if_true] at h
    have := (Option.some.inj h).symm
    subst this
    rfl
  by_cases hu : s.fd_table pid fd.toNat = -1
  · simp only [sys_write, hr, hu, if_true, if_false] at h
    have := (Option.some.inj h).symm
    subst this
    rfl
  cases hd : deref K s (s.fd_table pid fd.toNat) with
  | none => simp [sys_write, hr, hu, hd] at h
  | some r =>
    rw [sys_write_bound (by omega) (by omega) hu hd] at h
    split_ifs at h
    all_goals
      have := (Option.some.inj h).symm
      subst this
      simp [locksHeld]

theorem sys_lseek_locks {K : KConst} {s : KState} {pid : Nat}
    {fd pos whence retval64 : Int} {seekable : Bool} {stat_result st_size : Int}
    {out : Outcome Int}
    (h : sys_lseek K s pid fd pos whence retval64 seekable stat_result st_size = some out) :
    locksHeld [] out.ev = [] := by
  by_cases hr : fd < 0 ∨ fd ≥ K.OPEN_MAX
  · simp only [sys_lseek, hr, if_true] at h
    have := (Option.some.inj h).symm
    subst this
    rfl
  by_cases hu : s.fd_table pid fd.toNat = -1
  · simp only [sys_lseek, hr, hu, if_true, if_false] at h
    have := (Option.some.inj h).symm
    subst this
    rfl
  cases hd : deref K s (s.fd_table pid fd.toNat) with
  | none => simp [sys_lseek, hr, hu, hd] at h
  | some r =>
    rw [sys_lseek_bound (by omega) (by omega) hu hd] at h
    split_ifs at h
    all_goals
      have := (Option.some.inj h).symm
      subst this
      simp [locksHeld]

/-- C18: in a state where every record has `ref_counter ≥ 1`, each of `any_open`,
`sys_open`, `sys_close`, `sys_read`, `sys_write`, `sys_lseek` and `sys_dup2` holds no
lock when it returns, on every path; `sys_close` and `sys_dup2` destroy a record's
lock only after releasing it; `sys_close` on a bound descriptor acquires
`of_table_lock` first and the record's lock second.  In any state, `sys_close` on a
bound descriptor returns with a lock held exactly when the record's `ref_counter`
is 0 or less, and the lock it then holds is the record's. -/
theorem locks_released_on_return (K : KConst) (s : KState) (pid : Nat)
    (hpos : ∀ j r, j < K.OPEN_MAX → s.of j = some r → 1 ≤ r.ref_counter) :
    (∀ filename flags mode retval vfs_result new_vnode kmalloc_ok lock_ok,
      locksHeld [] (any_open K s pid filename flags mode retval vfs_result new_vnode
        kmalloc_ok lock_ok).ev = [] ∧
      ∀ usersrc copy_result, locksHeld [] (sys_open K s pid usersrc flags mode retval
        copy_result filename vfs_result new_vnode kmalloc_ok lock_ok).ev = []) ∧
    (∀ fd out, sys_close K s pid fd = some out →
      locksHeld [] out.ev = [] ∧ destroysReleased [] out.ev = true ∧
      (0 ≤ fd → fd < K.OPEN_MAX → s.fd_table pid fd.toNat ≠ -1 →
        acquired out.ev =
          [LockId.of_table_lock, LockId.of_lock (s.fd_table pid fd.toNat).toNat])) ∧
    (∀ fd buflen retval result uio_offset uio_resid out,
      sys_read K s pid fd buflen retval result uio_offset uio_resid = some out →
        locksHeld [] out.ev = []) ∧
    (∀ fd nbytes retval result uio_offset uio_resid out,
      sys_write K s pid fd nbytes retval result uio_offset uio_resid = some out →
        locksHeld [] out.ev = []) ∧
    (∀ fd pos whence retval64 seekable stat_result st_size out,
      sys_lseek K s pid fd pos whence retval64 seekable stat_result st_size = some out →
        locksHeld [] out.ev = []) ∧
    (∀ old_fd new_fd retval out, sys_dup2 K s pid old_fd new_fd retval = some out →
      locksHeld [] out.ev = [] ∧ destroysReleased [] out.ev = true) ∧
    (∀ (s' : KState) (fd : Int) (r : open_file) (out : Outcome Unit),
      0 ≤ fd → fd < K.OPEN_MAX → s'.fd_table pid fd.toNat ≠ -1 →
      deref K s' (s'.fd_table pid fd.toNat) = some r →
      sys_close K s' pid fd = some out →
        (locksHeld [] out.ev ≠ [] ↔ r.ref_counter ≤ 0) ∧
        (r.ref_counter ≤ 0 →
          locksHeld [] out.ev = [LockId.of_lock (s'.fd_table pid fd.toNat).toNat])) := by
  refine ⟨?_, ?_, fun _ _ _ _ _ _ _ h => sys_read_locks h,
    fun _ _ _ _ _ _ _ h => sys_write_locks h,
    fun _ _ _ _ _ _ _ _ h => sys_lseek_locks h, ?_, ?_⟩
  · intro filename flags mode retval vfs_result new_vnode kmalloc_ok lock_ok
    have hopen := any_open_locks K s pid filename flags mode retval vfs_result new_vnode
      kmalloc_ok lock_ok
    refine ⟨hopen, fun usersrc copy_result => ?_⟩
    show locksHeld [] (Event.copyinstr usersrc copy_result :: _) = []
    simpa [locksHeld] using hopen
  · intro fd out h
    obtain ⟨hl, hdr⟩ := sys_close_locks hpos h
    refine ⟨hl, hdr, fun h0 h1 hb => ?_⟩
    rcases sys_close_events h with ⟨hbad, _⟩ | ⟨r, _, _, _, _, hcases⟩
    · omega
    · rcases hcases with ⟨_, hev⟩ | ⟨_, hev⟩ | ⟨_, hev⟩ <;> rw [hev] <;> rfl
  · intro old_fd new_fd retval out h
    rcases sys_dup2_events h with hev | hev | ⟨c, hc, _, _, _, hev | hev⟩
    · rw [hev]
      exact ⟨rfl, rfl⟩
    · rw [hev]
      simp [locksHeld, destroysReleased]
    · rw [hev]
      exact sys_close_locks hpos hc
    · obtain ⟨hl, hdr⟩ := sys_close_locks hpos hc
      rw [hev, locksHeld_append, destroysReleased_append, hl, hdr]
      simp [locksHeld, destroysReleased]
  · intro s' fd r out h0 h1 hb hd h
    rw [sys_close_bound h0 h1 hb hd] at h
    by_cases hgt : r.ref_counter > 1
    · rw [if_pos hgt] at h
      have := (Option.some.inj h).symm
      subst this
      refine ⟨⟨fun hne => ?_, fun hle => by omega⟩, fun hle => by omega⟩
      exfalso
      apply hne
      simp [locksHeld]
    · by_cases h1' : r.ref_counter = 1
      · rw [if_neg hgt, if_pos h1'] at h
        have := (Option.some.inj h).symm
        subst this
        refine ⟨⟨fun hne => ?_, fun hle => by omega⟩, fun hle => by omega⟩
        exfalso
        apply hne
        simp [locksHeld]
      · rw [if_neg hgt, if_neg h1'] at h
        have := (Option.some.inj h).symm
        subst this
        refine ⟨⟨fun _ => by omega, fun _ => ?_⟩, fun _ => ?_⟩
        · simp [locksHeld]
        · simp [locksHeld]

/-- C18, at a concrete input: in `twoFiles`, where both records have `ref_counter` 1,
closing descriptor 1 of process 0 returns with no lock held, after acquiring
`of_table_lock` and then the lock of the record in Directory cell 1. -/
theorem locks_released_on_return_witness :
    ∃ out, sys_close os161 twoFiles 0 1 = some out ∧
      locksHeld [] out.ev = [] ∧ destroysReleased [] out.ev = true ∧
      acquired out.ev = [LockId.of_table_lock, LockId.of_lock 1] := by
  have hpos : ∀ j r, j < os161.OPEN_MAX → twoFiles.of j = some r → 1 ≤ r.ref_counter := by
    intro j r _ h
    by_cases h1 : j = 1
    · subst h1
      have hr : r = ⟨0, 8, 0, 1⟩ := (Option.some.inj h).symm
      subst hr
      decide
    · by_cases h2 : j = 2
      · subst h2
        have hr : r = ⟨10, 7, 2, 1⟩ := (Option.some.inj h).symm
        subst hr
        decide
      · have hn : twoFiles.of j = none := by simp [twoFiles, setOf, h1, h2]
        rw [hn] at h
        exact Option.noConfusion h
  have h := (locks_released_on_return os161 twoFiles 0 hpos).2.1 1 _ rfl
  exact ⟨_, rfl, h.1, h.2.1, h.2.2 (by decide) (by decide) (by decide)⟩

end OS161
